import Mathlib

/-!
# file-extractor: the traversal-and-filter engine of `main.go`

A shallow embedding of `extractFiles`, its walk callback, the filter
predicates and `isBinaryFile`, followed by the properties of the
specification that are stated about them.

Conventions of the embedding.

* Go strings and byte slices are lists of bytes (`Bytes`); a byte is a `Nat`.
* `int64` values (`maxFileSize`, `info.Size()`) are `Int`; the program only
  compares them, so no wrap-around arises.  `fileCount` is a `Nat`.
* The Go standard library is not part of the repository.  The functions whose
  behaviour depends on the platform or on Unicode tables
  (`strings.EqualFold`, `strings.ToLower`, `filepath.Join`,
  `os.IsPathSeparator`) are fields of `Lib`, and every theorem holds for every
  `Lib`.  `filepath.Ext` and `filepath.WalkDir` are transcribed from the Go
  sources.
* The file system is seen through what the walk observes: a `Node` carries the
  `fs.DirEntry` handed to the callback, the answers the operating system gives
  for the entry's path while it is visited (`PathView`), and the result of
  `os.ReadDir` on it.
* Console diagnostics of verbose mode are not part of the report and are left
  out; writes to the report are taken to succeed.
-/

namespace FileExtractor

/-- A Go string or byte slice. -/
abbrev Bytes := List Nat

/-- The bytes of an ASCII literal. -/
def bytes (s : String) : Bytes := s.toList.map Char.toNat

/-- Standard-library functions used by the program and left abstract. -/
structure Lib where
  /-- The function `strings.EqualFold`. -/
  equalFold : Bytes → Bytes → Bool
  /-- The function `strings.ToLower`. -/
  toLower : Bytes → Bytes
  /-- The function `filepath.Join` on a directory path and an entry name. -/
  join : Bytes → Bytes → Bytes
  /-- The function `os.IsPathSeparator`. -/
  isPathSeparator : Nat → Bool

/-- The struct `Config` of `main.go`. -/
structure Config where
  inputDir : Bytes
  outputFile : Bytes
  includeExts : List Bytes
  excludeExts : List Bytes
  includeDirs : List Bytes
  excludeDirs : List Bytes
  maxFileSize : Int
  followSymlinks : Bool
  verbose : Bool
  showVersion : Bool
  showHelp : Bool

/-- The type bits reported by `d.Type()`. -/
inductive FileMode where
  | regular
  | dir
  | symlink
  | other
  deriving DecidableEq

/-- An `fs.DirEntry`: `Name()`, `Type()` and the result of `Info()`
(`some size` for `info.Size()`, `none` when `Info()` returns an error). -/
structure DirEntry where
  name : Bytes
  typ : FileMode
  info : Option Int
  deriving DecidableEq

/-- Whether `d.IsDir()` holds. -/
def DirEntry.isDir (d : DirEntry) : Bool := decide (d.typ = FileMode.dir)

/-- What the operating system answers for the path of an entry while the
entry is visited: whether `os.Open` succeeds, whether reading from the opened
file succeeds, and the bytes that reading yields. -/
structure PathView where
  canOpen : Bool
  canRead : Bool
  content : Bytes
  deriving DecidableEq

/-- A node of the tree under the input directory: its directory entry, the
view of its path, and what `os.ReadDir` gives for it (whether it reports an
error, and the entries it returns, in the order it returns them). -/
inductive Node where
  | mk (d : DirEntry) (view : PathView) (readDirErr : Bool) (children : List Node)

/-- The directory entry of a node. -/
def Node.entry : Node → DirEntry
  | .mk d _ _ _ => d

/-- The values of Go type `error` that matter to the walk: `filepath.SkipDir`,
`filepath.SkipAll`, and any other error. -/
inductive WalkErr where
  | skipDir
  | skipAll
  | other
  deriving DecidableEq

/-- The arguments `d` and `err` of one call of an `fs.WalkDirFunc`, together
with the view of the path the call is about.  `ok` is a call with
`err == nil`; `failed` is a call with `err != nil`, where `d` is `nil` when
`os.Lstat` of the root failed. -/
inductive Visit where
  | ok (d : DirEntry) (view : PathView)
  | failed (d : Option DirEntry)
  deriving DecidableEq

/-- The state captured by the closure `walkFunc`: the bytes written to
`writer` so far and `fileCount`. -/
structure State where
  writer : Bytes
  fileCount : Nat
  deriving DecidableEq

/-- An `fs.WalkDirFunc` acting on a state of type `σ`; `none` is a `nil`
error. -/
abbrev WalkDirFunc (σ : Type) := Bytes → Visit → σ → σ × Option WalkErr

/-! ## Filter predicates -/

/-- The function `shouldExcludeDir` of `main.go`. -/
def shouldExcludeDir (lib : Lib) (dirName : Bytes) : List Bytes → Bool
  | [] => false
  | excludeDir :: rest =>
    if lib.equalFold dirName excludeDir then true
    else shouldExcludeDir lib dirName rest

/-- The function `shouldIncludeDir` of `main.go`. -/
def shouldIncludeDir (lib : Lib) (dirName : Bytes) : List Bytes → Bool
  | [] => false
  | includeDir :: rest =>
    if lib.equalFold dirName includeDir then true
    else shouldIncludeDir lib dirName rest

/-- The function `contains` of `main.go`. -/
def contains (lib : Lib) : List Bytes → Bytes → Bool
  | [], _ => false
  | s :: rest, item =>
    if lib.equalFold s item then true
    else contains lib rest item

/-- The loop of `filepath.Ext`, walking the path from its last byte towards
its first; `scanned` is the part of the path already passed. -/
def extLoop (lib : Lib) : List Nat → Bytes → Bytes
  | [], _ => []
  | c :: before, scanned =>
    if lib.isPathSeparator c then []
    else if c = 46 then c :: scanned
    else extLoop lib before (c :: scanned)

/-- The function `filepath.Ext`: the suffix of the path starting at the last
dot of its last element, empty when there is none. -/
def filepathExt (lib : Lib) (path : Bytes) : Bytes :=
  extLoop lib path.reverse []

/-! ## Binary sniffer -/

/-- The call `file.Read(buffer)` on a freshly opened file: `none` when it
returns an error (a failed read, or `io.EOF` on an empty file), otherwise the
number of bytes read and the buffer after the read. -/
def fileRead (view : PathView) (buffer : Bytes) : Option (Nat × Bytes) :=
  if view.canRead = false then none
  else if view.content = [] then none
  else
    let n := min buffer.length view.content.length
    some (n, view.content.take n ++ buffer.drop n)

/-- The function `isBinaryFile` of `main.go`. -/
def isBinaryFile (view : PathView) : Bool :=
  if view.canOpen = false then false
  else
    match fileRead view (List.replicate 512 0) with
    | none => false
    | some (n, buffer) => (List.range n).any (fun i => buffer.getD i 0 == 0)

/-- The call `os.ReadFile(path)`: the whole content, `none` on error. -/
def osReadFile (view : PathView) : Option Bytes :=
  if view.canOpen = false then none
  else if view.canRead = false then none
  else some view.content

/-! ## Walk callback -/

/-- The three writes of one entry: `"%s\n\n"` with the path, the content, and
`"\n\n%s\n\n"` with fifty dashes. -/
def entryBlock (path content : Bytes) : Bytes :=
  path ++ bytes "\n\n" ++ content ++ (bytes "\n\n" ++ List.replicate 50 45 ++ bytes "\n\n")

/-- The closure `walkFunc` of `extractFiles`. -/
def walkFunc (lib : Lib) (config : Config) : WalkDirFunc State :=
  fun path v s =>
  match v with
  | .failed _ => (s, none)
  | .ok d view =>
    if d.typ = FileMode.symlink ∧ config.followSymlinks = false then (s, none)
    else if d.isDir then
      if shouldExcludeDir lib d.name config.excludeDirs then (s, some WalkErr.skipDir)
      else if config.includeDirs.length > 0
          ∧ shouldIncludeDir lib d.name config.includeDirs = false then (s, none)
      else (s, none)
    else
      let ext := lib.toLower (filepathExt lib path)
      if config.includeExts.length > 0 ∧ contains lib config.includeExts ext = false then
        (s, none)
      else if config.excludeExts.length > 0 ∧ contains lib config.excludeExts ext = true then
        (s, none)
      else
        match d.info with
        | none => (s, none)
        | some size =>
          if size > config.maxFileSize then (s, none)
          else if isBinaryFile view then (s, none)
          else
            match osReadFile view with
            | none => (s, none)
            | some content =>
              ({ writer := s.writer ++ entryBlock path content,
                 fileCount := s.fileCount + 1 }, none)

/-! ## The walker `filepath.WalkDir` -/

mutual
/-- The function `filepath.walkDir`. -/
def walkDir {σ : Type} (lib : Lib) (fn : WalkDirFunc σ) (path : Bytes) : Node → σ → σ × Option WalkErr
  | .mk d view readDirErr dirs, s =>
    let r := fn path (.ok d view) s
    if r.2 ≠ none ∨ d.isDir = false then
      (r.1, if r.2 = some WalkErr.skipDir ∧ d.isDir = true then none else r.2)
    else if readDirErr then
      let r2 := fn path (.failed (some d)) r.1
      if r2.2 ≠ none then
        (r2.1, if r2.2 = some WalkErr.skipDir ∧ d.isDir = true then none else r2.2)
      else walkDirs lib fn path dirs r2.1
    else walkDirs lib fn path dirs r.1
/-- The loop `for _, d1 := range dirs` of `filepath.walkDir`. -/
def walkDirs {σ : Type} (lib : Lib) (fn : WalkDirFunc σ) (path : Bytes) : List Node → σ → σ × Option WalkErr
  | [], s => (s, none)
  | d1 :: rest, s =>
    let r := walkDir lib fn (lib.join path d1.entry.name) d1 s
    if r.2 ≠ none then
      if r.2 = some WalkErr.skipDir then (r.1, none) else r
    else walkDirs lib fn path rest r.1
end

/-- The function `filepath.WalkDir`; `lstat` is the result of `os.Lstat(root)`
(`none` on error) together with the tree below it. -/
def WalkDir {σ : Type} (lib : Lib) (fn : WalkDirFunc σ) (root : Bytes) (lstat : Option Node)
    (s : σ) : σ × Option WalkErr :=
  let r := match lstat with
    | none => fn root (.failed none) s
    | some n => walkDir lib fn root n s
  if r.2 = some WalkErr.skipDir ∨ r.2 = some WalkErr.skipAll then (r.1, none) else r

/-! ## `extractFiles` -/

/-- What `extractFiles` meets outside the configuration: whether `os.Create`
of the output file fails, the two formatted timestamps, and the tree found at
the input directory. -/
structure World where
  createFails : Bool
  startStamp : Bytes
  endStamp : Bytes
  root : Option Node

/-- The error returned by `extractFiles`. -/
inductive ExtractErr where
  | createFailed
  | walkFailed (e : WalkErr)
  deriving DecidableEq

/-- The result of a run: the returned error (`none` for `nil`) and the bytes
of the output file after the deferred flush and close (`none` when the file
was not created). -/
structure Outcome where
  err : Option ExtractErr
  report : Option Bytes
  deriving DecidableEq

/-- The four header writes. -/
def header (config : Config) (world : World) : Bytes :=
  bytes "File Content Extraction Report\n"
    ++ (bytes "Generated: " ++ world.startStamp ++ bytes "\n")
    ++ (bytes "Source Directory: " ++ config.inputDir ++ bytes "\n")
    ++ (List.replicate 50 61 ++ bytes "\n\n")

/-- The three footer writes; `%d` prints the count in decimal. -/
def footer (world : World) (fileCount : Nat) : Bytes :=
  bytes "\nExtraction Summary\n"
    ++ (bytes "Files processed: " ++ bytes (toString fileCount) ++ bytes "\n")
    ++ (bytes "Completed: " ++ world.endStamp ++ bytes "\n")

/-- The function `extractFiles` of `main.go`. -/
def extractFiles (lib : Lib) (config : Config) (world : World) : Outcome :=
  if world.createFails then { err := some ExtractErr.createFailed, report := none }
  else
    let s0 : State := { writer := header config world, fileCount := 0 }
    let r := WalkDir lib (walkFunc lib config) config.inputDir world.root s0
    match r.2 with
    | some e => { err := some (ExtractErr.walkFailed e), report := some r.1.writer }
    | none => { err := none, report := some (r.1.writer ++ footer world r.1.fileCount) }

/-! ## The sequence of visits -/

/-- A callback that also logs each of its calls (path, entry, error), in
order, without changing what the callback does. -/
def traced {σ : Type} (fn : WalkDirFunc σ) : WalkDirFunc (σ × List (Bytes × Visit)) :=
  fun path v st =>
    let r := fn path v st.1
    ((r.1, st.2 ++ [(path, v)]), r.2)

/-- The calls of `walkFunc` made by `filepath.WalkDir` during a run of
`extractFiles`, in the order they are made. -/
def visits (lib : Lib) (config : Config) (world : World) : List (Bytes × Visit) :=
  (WalkDir lib (traced (walkFunc lib config)) config.inputDir world.root
    ({ writer := header config world, fileCount := 0 }, [])).1.2

/-! ## The selection rules in the words of the specification -/

/-- The predicate `extensionAllowed` of section 4.1 of the specification:
exclusion is tested first, then inclusion. -/
def extensionAllowed (lib : Lib) (path : Bytes) (includeList excludeList : List Bytes) : Bool :=
  let e := lib.toLower (filepathExt lib path)
  if excludeList ≠ [] ∧ contains lib excludeList e = true then false
  else if includeList ≠ [] ∧ contains lib includeList e = false then false
  else true

/-- The entry block a visit contributes to the report according to the file
branch of section 4.3 of the specification, `none` when the visit emits
nothing. -/
def emitted (lib : Lib) (config : Config) (pv : Bytes × Visit) : Option Bytes :=
  match pv.2 with
  | .failed _ => none
  | .ok d view =>
    if d.typ = FileMode.symlink ∧ config.followSymlinks = false then none
    else if d.isDir = true then none
    else if extensionAllowed lib pv.1 config.includeExts config.excludeExts = false then none
    else
      match d.info with
      | none => none
      | some size =>
        if size ≤ config.maxFileSize ∧ isBinaryFile view = false then
          (osReadFile view).map (entryBlock pv.1)
        else none

/-- The state after one more write of an entry block, or the same state when
there is nothing to write. -/
def appendBlock (s : State) : Option Bytes → State
  | none => s
  | some b => { writer := s.writer ++ b, fileCount := s.fileCount + 1 }

mutual
/-- The tree with everything beneath the directories named in `excludeDirs`
removed. -/
def pruneExcluded (lib : Lib) (config : Config) : Node → Node
  | .mk d view readDirErr children =>
    if d.isDir = true ∧ shouldExcludeDir lib d.name config.excludeDirs = true then
      .mk d view false []
    else .mk d view readDirErr (pruneExcludedAll lib config children)
/-- The function `pruneExcluded` on a list of siblings. -/
def pruneExcludedAll (lib : Lib) (config : Config) : List Node → List Node
  | [] => []
  | n :: rest => pruneExcluded lib config n :: pruneExcludedAll lib config rest
end

/-- Whether a call of `walkFunc` returns `filepath.SkipDir`: a call without
error on a directory named in `excludeDirs`. -/
def prunes (lib : Lib) (config : Config) : Visit → Bool
  | .failed _ => false
  | .ok d _ => d.isDir && shouldExcludeDir lib d.name config.excludeDirs

/-- The state after the visits of a list, each contributing the block that
`emitted` gives it. -/
def applyVisits (lib : Lib) (config : Config) (s : State) (visited : List (Bytes × Visit)) : State :=
  visited.foldl (fun st pv => appendBlock st (emitted lib config pv)) s

mutual
/-- Every entry of the tree with its path and view, directories included, in
depth-first order and without any pruning. -/
def allEntries (lib : Lib) (path : Bytes) : Node → List (Bytes × DirEntry × PathView)
  | .mk d view _ children =>
    (path, d, view) :: (if d.isDir = true then allEntriesOf lib path children else [])
/-- The function `allEntries` on the entries of a directory. -/
def allEntriesOf (lib : Lib) (path : Bytes) : List Node → List (Bytes × DirEntry × PathView)
  | [] => []
  | n :: rest => allEntries lib (lib.join path n.entry.name) n ++ allEntriesOf lib path rest
end

/-- The four conditions named by the first testable property of section 8 of
the specification: extension in the include list, not in the exclude list,
size within the bound, not detected binary. -/
def meetsStatedConditions (lib : Lib) (config : Config) (path : Bytes) (d : DirEntry)
    (view : PathView) : Bool :=
  contains lib config.includeExts (lib.toLower (filepathExt lib path))
    && !contains lib config.excludeExts (lib.toLower (filepathExt lib path))
    && (match d.info with
        | some size => decide (size ≤ config.maxFileSize)
        | none => false)
    && !isBinaryFile view

/-! ## The entries of the tree and their places -/

/-- An entry of the tree with its place: its path, its directory entry, the
view of its path, and the names of the directories it lies beneath, outermost
first. -/
structure Placed where
  path : Bytes
  d : DirEntry
  view : PathView
  above : List Bytes
  deriving DecidableEq

mutual
/-- Every entry of the tree below and including a node, in depth-first
order, each with the names of the directories above it.  Nothing is pruned. -/
def placedEntries (lib : Lib) (path : Bytes) (above : List Bytes) : Node → List Placed
  | .mk d view _ children =>
    { path := path, d := d, view := view, above := above } ::
      (if d.isDir = true then placedEntriesOf lib path (above ++ [d.name]) children else [])
/-- The function `placedEntries` on the entries of a directory. -/
def placedEntriesOf (lib : Lib) (path : Bytes) (above : List Bytes) : List Node → List Placed
  | [] => []
  | n :: rest =>
    placedEntries lib (lib.join path n.entry.name) above n ++ placedEntriesOf lib path above rest
end

/-- Whether an entry lies, at any depth, beneath a directory whose name
matches an entry of `excludeDirs` under `strings.EqualFold`. -/
def Placed.beneathExcluded (lib : Lib) (config : Config) (e : Placed) : Bool :=
  e.above.any (fun name => config.excludeDirs.any (fun x => lib.equalFold name x))

/-- The entries of the tree found at the input directory; none when
`os.Lstat` of the input directory fails. -/
def treeEntries (lib : Lib) (config : Config) (world : World) : List Placed :=
  match world.root with
  | none => []
  | some n => placedEntries lib config.inputDir [] n

/-- The entries of the tree that do not lie beneath an excluded directory. -/
def keptEntries (lib : Lib) (config : Config) (world : World) : List Placed :=
  (treeEntries lib config world).filter (fun e => !e.beneathExcluded lib config)

/-- The file branch of section 4.3 of the specification on an entry of the
tree: the entry block it contributes, `none` when it is not emitted. -/
def Placed.block (lib : Lib) (config : Config) (e : Placed) : Option Bytes :=
  emitted lib config (e.path, .ok e.d e.view)

/-- The entry blocks of the report: those of the entries of the tree that do
not lie beneath an excluded directory, in depth-first order. -/
def treeBlocks (lib : Lib) (config : Config) (world : World) : List Bytes :=
  (keptEntries lib config world).filterMap (Placed.block lib config)

/-- The entry of a call of the callback made without error. -/
def okCall : Bytes × Visit → Option (Bytes × DirEntry × PathView)
  | (path, .ok d view) => some (path, d, view)
  | (_, .failed _) => none

/-- The footer as claim C9 lists it: the three lines `Extraction Summary`,
`Files processed:` and `Completed:`, nothing before them. -/
def statedFooter (world : World) (fileCount : Nat) : Bytes :=
  bytes "Extraction Summary\n"
    ++ (bytes "Files processed: " ++ bytes (toString fileCount) ++ bytes "\n")
    ++ (bytes "Completed: " ++ world.endStamp ++ bytes "\n")

/-! ## Concrete instances used in the examples -/

/-- Lower-casing of an ASCII byte. -/
def asciiLower (c : Nat) : Nat := if 65 ≤ c ∧ c ≤ 90 then c + 32 else c

/-- The library functions on ASCII strings and Unix paths that need no
cleaning. -/
def unixLib : Lib where
  equalFold := fun a b => a.map asciiLower == b.map asciiLower
  toLower := fun a => a.map asciiLower
  join := fun p n => p ++ [47] ++ n
  isPathSeparator := fun c => c == 47

/-- A readable regular file. -/
def regularFile (name : String) (content : Bytes) : Node :=
  .mk { name := bytes name, typ := FileMode.regular, info := some content.length }
    { canOpen := true, canRead := true, content := content } false []

/-- A readable directory. -/
def directory (name : String) (children : List Node) : Node :=
  .mk { name := bytes name, typ := FileMode.dir, info := some 4096 }
    { canOpen := true, canRead := false, content := [] } false children

/-- The tree of the scenario of section 8 of the specification. -/
def sampleTree : Node :=
  directory "src" [regularFile "a.go" (bytes "package a\n"),
    regularFile "b.bin" (bytes "0123456789" ++ [0] ++ bytes "xyz"),
    directory "vendor" [regularFile "c.go" (bytes "package c\n")]]

/-- The configuration of the scenario of section 8 of the specification. -/
def sampleConfig : Config where
  inputDir := bytes "src"
  outputFile := bytes "out.txt"
  includeExts := [bytes ".go"]
  excludeExts := []
  includeDirs := []
  excludeDirs := [bytes "vendor"]
  maxFileSize := 10485760
  followSymlinks := false
  verbose := false
  showVersion := false
  showHelp := false

/-- A world in which the output file can be created and the input directory
holds `sampleTree`. -/
def sampleWorld : World where
  createFails := false
  startStamp := bytes "2024-01-01 00:00:00"
  endStamp := bytes "2024-01-01 00:00:01"
  root := some sampleTree

/-- The directory entry of a regular file `a.go` of ten bytes. -/
def goEntry : DirEntry := { name := bytes "a.go", typ := FileMode.regular, info := some 10 }

/-- The view of a readable text file. -/
def goView : PathView := { canOpen := true, canRead := true, content := bytes "package a\n" }

/-- The state before anything is written. -/
def emptyState : State := { writer := [], fileCount := 0 }

/-- The directory entry of a symbolic link `l.go`. -/
def linkEntry : DirEntry := { name := bytes "l.go", typ := FileMode.symlink, info := some 4 }

/-- A world whose input directory holds one symbolic link to a text file. -/
def linkWorld : World where
  createFails := false
  startStamp := bytes "2024-01-01 00:00:00"
  endStamp := bytes "2024-01-01 00:00:01"
  root := some (directory "src" [.mk linkEntry goView false []])

/-- The view of a file that cannot be opened. -/
def lockedView : PathView := { canOpen := false, canRead := false, content := bytes "package a\n" }

/-- A world whose input directory holds one file that cannot be opened. -/
def lockedWorld : World where
  createFails := false
  startStamp := bytes "2024-01-01 00:00:00"
  endStamp := bytes "2024-01-01 00:00:01"
  root := some (directory "src" [.mk goEntry lockedView false []])

/-- The sample configuration with `followSymlinks` set. -/
def followConfig : Config := { sampleConfig with followSymlinks := true }

/-- The sample configuration with another include-directory list. -/
def includeDirConfig : Config := { sampleConfig with includeDirs := [bytes "docs"] }

/-- The directory entry of a directory `Vendor`. -/
def vendorEntry : DirEntry := { name := bytes "Vendor", typ := FileMode.dir, info := some 4096 }

/-- The directory entry of a directory `lib`. -/
def libEntry : DirEntry := { name := bytes "lib", typ := FileMode.dir, info := some 4096 }

/-- The view of a directory: it can be opened but reading it as a file fails. -/
def dirView : PathView := { canOpen := true, canRead := false, content := [] }

/-- A world whose input directory is empty. -/
def emptyDirWorld : World where
  createFails := false
  startStamp := bytes "2024-01-01 00:00:00"
  endStamp := bytes "2024-01-01 00:00:01"
  root := some (directory "src" [])

/-- The view of a readable file of 513 bytes whose only NUL byte is the last
one, at offset 512. -/
def lateNulView : PathView :=
  { canOpen := true, canRead := true, content := List.replicate 512 65 ++ [0] }

/-- The sample configuration with a size bound of ten bytes. -/
def tightConfig : Config := { sampleConfig with maxFileSize := 10 }

/-- A tree with nested directories, each listing in the order of `os.ReadDir`:
`src` holds `README.md`, `a.go`, the directory `pkg` and the directory
`vendor` with `c.go`; `pkg` holds a directory `Vendor` with `v.go`, then
`p.go` and `q.txt`. -/
def deepTree : Node :=
  directory "src" [regularFile "README.md" (bytes "# notes\n"),
    regularFile "a.go" (bytes "package a\n"),
    directory "pkg" [directory "Vendor" [regularFile "v.go" (bytes "package v\n")],
      regularFile "p.go" (bytes "package p\n"),
      regularFile "q.txt" (bytes "notes\n")],
    directory "vendor" [regularFile "c.go" (bytes "package c\n")]]

/-- A world in which the output file can be created and the input directory
holds `deepTree`. -/
def deepWorld : World where
  createFails := false
  startStamp := bytes "2024-01-01 00:00:00"
  endStamp := bytes "2024-01-01 00:00:01"
  root := some deepTree

/-- A configuration whose lists have two entries each. -/
def wideConfig : Config :=
  { sampleConfig with
    includeExts := [bytes ".md", bytes ".go"]
    excludeExts := [bytes ".tmp", bytes ".bak"]
    excludeDirs := [bytes ".git", bytes "vendor"] }

/-! ## Lemmas about the walk -/

/-- The callback in closed form: the state after a call is the state before it with the block of `emitted` appended, and the returned error is
`filepath.SkipDir` exactly for an excluded directory that the symlink policy
does not skip. -/
theorem walkFunc_signal (lib : Lib) (config : Config) (path : Bytes) (v : Visit) (s : State) :
    walkFunc lib config path v s =
      (appendBlock s (emitted lib config (path, v)),
        match v with
        | .failed _ => none
        | .ok d _ =>
          if d.isDir = true ∧ shouldExcludeDir lib d.name config.excludeDirs = true
            ∧ ¬ (d.typ = FileMode.symlink ∧ config.followSymlinks = false)
          then some WalkErr.skipDir else none) := by
  cases v with
  | failed d => simp [walkFunc, emitted, appendBlock]
  | ok d view =>
    simp only [walkFunc, emitted, extensionAllowed]
    by_cases hs : d.typ = FileMode.symlink ∧ config.followSymlinks = false
    · simp [hs, appendBlock]
    · by_cases hd : d.isDir = true
      · by_cases hx : shouldExcludeDir lib d.name config.excludeDirs = true
        · simp [hs, hd, hx, appendBlock]
        · simp [hs, hd, hx, appendBlock]
      · simp only [hs, hd, if_false]
        by_cases hi : config.includeExts.length > 0 ∧
            contains lib config.includeExts (lib.toLower (filepathExt lib path)) = false
        · have hi2 : config.includeExts ≠ [] := List.length_pos.mp hi.1
          simp [hi, hi2, appendBlock]
        · have hi2 : ¬ (config.includeExts ≠ [] ∧
              contains lib config.includeExts (lib.toLower (filepathExt lib path)) = false) :=
            fun h => hi ⟨List.length_pos.mpr h.1, h.2⟩
          by_cases he : config.excludeExts.length > 0 ∧
              contains lib config.excludeExts (lib.toLower (filepathExt lib path)) = true
          · have he2 : config.excludeExts ≠ [] := List.length_pos.mp he.1
            simp [he, he2, appendBlock]
          · have he2 : ¬ (config.excludeExts ≠ [] ∧
                contains lib config.excludeExts (lib.toLower (filepathExt lib path)) = true) :=
              fun h => he ⟨List.length_pos.mpr h.1, h.2⟩
            simp only [hi, hi2, he, he2, if_false]
            cases hinfo : d.info with
            | none => simp [appendBlock]
            | some size =>
              by_cases hsz : size > config.maxFileSize
              · have : ¬ size ≤ config.maxFileSize := not_le.mpr hsz
                simp [hsz, this, appendBlock]
              · have hle : size ≤ config.maxFileSize := not_lt.mp hsz
                by_cases hb : isBinaryFile view = true
                · simp [hsz, hb, appendBlock]
                · cases hr : osReadFile view with
                  | none => simp [hsz, hb, hle, appendBlock]
                  | some content => simp [hsz, hb, hle, appendBlock]
mutual
/-- Logging the calls does not change what `filepath.walkDir` computes. -/
theorem walkDir_traced {σ : Type} (lib : Lib) (fn : WalkDirFunc σ) :
    ∀ (n : Node) (path : Bytes) (s : σ) (log : List (Bytes × Visit)),
      ∃ log2, walkDir lib (traced fn) path n (s, log)
        = (((walkDir lib fn path n s).1, log2), (walkDir lib fn path n s).2)
  | .mk d view readDirErr dirs, path, s, log => by
    simp only [walkDir, traced]
    by_cases h1 : (fn path (.ok d view) s).2 ≠ none ∨ d.isDir = false
    · rw [if_pos h1, if_pos h1]
      exact ⟨_, rfl⟩
    · rw [if_neg h1, if_neg h1]
      cases readDirErr with
      | false => simpa using walkDirs_traced lib fn dirs path _ _
      | true =>
        simp only [if_true]
        by_cases h2 : (fn path (.failed (some d)) (fn path (.ok d view) s).1).2 ≠ none
        · rw [if_pos h2, if_pos h2]
          exact ⟨_, rfl⟩
        · rw [if_neg h2, if_neg h2]
          exact walkDirs_traced lib fn dirs path _ _
/-- Logging the calls does not change what the loop over the entries of a
directory computes. -/
theorem walkDirs_traced {σ : Type} (lib : Lib) (fn : WalkDirFunc σ) :
    ∀ (ns : List Node) (path : Bytes) (s : σ) (log : List (Bytes × Visit)),
      ∃ log2, walkDirs lib (traced fn) path ns (s, log)
        = (((walkDirs lib fn path ns s).1, log2), (walkDirs lib fn path ns s).2)
  | [], path, s, log => ⟨log, by simp [walkDirs]⟩
  | d1 :: rest, path, s, log => by
    obtain ⟨l1, h1⟩ := walkDir_traced lib fn d1 (lib.join path d1.entry.name) s log
    simp only [walkDirs]
    rw [h1]
    by_cases h2 : (walkDir lib fn (lib.join path d1.entry.name) d1 s).2 ≠ none
    · rw [if_pos h2, if_pos h2]
      by_cases h3 : (walkDir lib fn (lib.join path d1.entry.name) d1 s).2 = some WalkErr.skipDir
      · rw [if_pos h3, if_pos h3]
        exact ⟨_, rfl⟩
      · rw [if_neg h3, if_neg h3]
        exact ⟨_, rfl⟩
    · rw [if_neg h2, if_neg h2]
      exact walkDirs_traced lib fn rest path _ _
end
/-- A directory entry is not a symbolic link. -/
theorem isDir_not_symlink (d : DirEntry) (h : d.isDir = true) : d.typ ≠ FileMode.symlink := by
  intro hc
  simp [DirEntry.isDir, hc] at h

/-- The callback in closed form, with the returned error given by `prunes`. -/
theorem walkFunc_eq (lib : Lib) (config : Config) (path : Bytes) (v : Visit) (s : State) :
    walkFunc lib config path v s =
      (appendBlock s (emitted lib config (path, v)),
        if prunes lib config v = true then some WalkErr.skipDir else none) := by
  rw [walkFunc_signal]
  cases v with
  | failed d => simp [prunes]
  | ok d view =>
    by_cases hd : d.isDir = true
    · have := isDir_not_symlink d hd
      simp [prunes, hd, this]
    · simp [prunes, hd]

/-- The visits of two lists in a row. -/
theorem applyVisits_append (lib : Lib) (config : Config) (s : State) (a b : List (Bytes × Visit)) :
    applyVisits lib config s (a ++ b) = applyVisits lib config (applyVisits lib config s a) b := by
  simp [applyVisits, List.foldl_append]

mutual
/-- The walk of a node with `walkFunc` makes a sequence of calls that does not
depend on the state, applies them in order, and returns no error. -/
theorem walkDir_walkFunc (lib : Lib) (config : Config) :
    ∀ (n : Node) (path : Bytes), ∃ visited : List (Bytes × Visit), ∀ (s : State) (log : List (Bytes × Visit)),
      walkDir lib (traced (walkFunc lib config)) path n (s, log)
        = ((applyVisits lib config s visited, log ++ visited), none)
  | .mk d view readDirErr dirs, path => by
    obtain ⟨below, hbelow⟩ := walkDirs_walkFunc lib config dirs path
    by_cases hd : d.isDir = true
    · by_cases hx : shouldExcludeDir lib d.name config.excludeDirs = true
      · refine ⟨[(path, .ok d view)], fun s log => ?_⟩
        simp [walkDir, traced, walkFunc_eq, prunes, hd, hx, applyVisits]
      · cases readDirErr with
        | false =>
          refine ⟨(path, .ok d view) :: below, fun s log => ?_⟩
          simp [walkDir, traced, walkFunc_eq, prunes, hd, hx, applyVisits, hbelow]
        | true =>
          refine ⟨(path, .ok d view) :: (path, .failed (some d)) :: below, fun s log => ?_⟩
          simp [walkDir, traced, walkFunc_eq, prunes, hd, hx, applyVisits, hbelow]
    · refine ⟨[(path, .ok d view)], fun s log => ?_⟩
      simp [walkDir, traced, walkFunc_eq, prunes, hd, applyVisits]
/-- The walk of the entries of a directory with `walkFunc` makes a sequence of
calls that does not depend on the state, applies them in order, and returns
no error. -/
theorem walkDirs_walkFunc (lib : Lib) (config : Config) :
    ∀ (ns : List Node) (path : Bytes), ∃ visited : List (Bytes × Visit), ∀ (s : State) (log : List (Bytes × Visit)),
      walkDirs lib (traced (walkFunc lib config)) path ns (s, log)
        = ((applyVisits lib config s visited, log ++ visited), none)
  | [], path => ⟨[], fun s log => by simp [walkDirs, applyVisits]⟩
  | d1 :: rest, path => by
    obtain ⟨v1, h1⟩ := walkDir_walkFunc lib config d1 (lib.join path d1.entry.name)
    obtain ⟨v2, h2⟩ := walkDirs_walkFunc lib config rest path
    refine ⟨v1 ++ v2, fun s log => ?_⟩
    simp [walkDirs, h1, h2, applyVisits_append]
end

/-- The state after a list of visits: the blocks they emit are appended in
order and counted. -/
theorem applyVisits_writer (lib : Lib) (config : Config) (visited : List (Bytes × Visit)) :
    ∀ s : State, applyVisits lib config s visited =
      { writer := s.writer ++ (visited.filterMap (emitted lib config)).flatten,
        fileCount := s.fileCount + (visited.filterMap (emitted lib config)).length } := by
  induction visited with
  | nil => intro s; simp [applyVisits]
  | cons pv rest ih =>
    intro s
    have step : applyVisits lib config s (pv :: rest)
        = applyVisits lib config (appendBlock s (emitted lib config pv)) rest := by
      simp [applyVisits]
    rw [step, ih]
    cases he : emitted lib config pv with
    | none => simp [appendBlock, List.filterMap_cons, he]
    | some b =>
      simp [appendBlock, List.filterMap_cons, he, List.append_assoc]
      omega

/-- Logging the calls does not change what `filepath.WalkDir` computes. -/
theorem WalkDir_traced {σ : Type} (lib : Lib) (fn : WalkDirFunc σ) (root : Bytes)
    (lstat : Option Node) (s : σ) (log : List (Bytes × Visit)) :
    ∃ log2, WalkDir lib (traced fn) root lstat (s, log)
      = (((WalkDir lib fn root lstat s).1, log2), (WalkDir lib fn root lstat s).2) := by
  cases lstat with
  | none =>
    simp only [WalkDir, traced]
    by_cases h : (fn root (.failed none) s).2 = some WalkErr.skipDir
        ∨ (fn root (.failed none) s).2 = some WalkErr.skipAll
    · rw [if_pos h, if_pos h]; exact ⟨_, rfl⟩
    · rw [if_neg h, if_neg h]; exact ⟨_, rfl⟩
  | some n =>
    obtain ⟨l, hl⟩ := walkDir_traced lib fn n root s log
    simp only [WalkDir]
    rw [hl]
    by_cases h : (walkDir lib fn root n s).2 = some WalkErr.skipDir
        ∨ (walkDir lib fn root n s).2 = some WalkErr.skipAll
    · rw [if_pos h, if_pos h]; exact ⟨_, rfl⟩
    · rw [if_neg h, if_neg h]; exact ⟨_, rfl⟩

/-- The walk from the root with `walkFunc` applies a sequence of calls that
does not depend on the state and returns no error. -/
theorem WalkDir_walkFunc (lib : Lib) (config : Config) (root : Bytes) (lstat : Option Node) :
    ∃ visited : List (Bytes × Visit), ∀ (s : State) (log : List (Bytes × Visit)),
      WalkDir lib (traced (walkFunc lib config)) root lstat (s, log)
        = ((applyVisits lib config s visited, log ++ visited), none) := by
  cases lstat with
  | none =>
    refine ⟨[(root, .failed none)], fun s log => ?_⟩
    simp [WalkDir, traced, walkFunc_eq, prunes, applyVisits, emitted, appendBlock]
  | some n =>
    obtain ⟨v, hv⟩ := walkDir_walkFunc lib config n root
    refine ⟨v, fun s log => ?_⟩
    simp [WalkDir, hv]

/-- The walk of `extractFiles` applies the calls of `visits` in order and
returns no error. -/
theorem run_eq (lib : Lib) (config : Config) (world : World) (s : State) :
    WalkDir lib (walkFunc lib config) config.inputDir world.root s
      = (applyVisits lib config s (visits lib config world), none) := by
  obtain ⟨v, hv⟩ := WalkDir_walkFunc lib config config.inputDir world.root
  have hvis : visits lib config world = v := by simp [visits, hv]
  obtain ⟨l, hl⟩ := WalkDir_traced lib (walkFunc lib config) config.inputDir world.root s []
  rw [hv] at hl
  have h1 := congrArg (fun p => p.1.1) hl
  have h2 := congrArg (fun p => p.2) hl
  simp only at h1 h2
  rw [hvis]
  exact Prod.ext h1.symm h2.symm

/-- Removing what lies beneath excluded directories keeps the entry of a
node. -/
theorem pruneExcluded_entry (lib : Lib) (config : Config) (n : Node) :
    (pruneExcluded lib config n).entry = n.entry := by
  cases n with
  | mk d view readDirErr children =>
    by_cases h : d.isDir = true ∧ shouldExcludeDir lib d.name config.excludeDirs = true
    · simp [pruneExcluded, h, Node.entry]
    · simp [pruneExcluded, h, Node.entry]

mutual
/-- The walk of a node does not see what lies beneath excluded directories. -/
theorem walkDir_pruneExcluded (lib : Lib) (config : Config) :
    ∀ (n : Node) (path : Bytes) (st : State × List (Bytes × Visit)),
      walkDir lib (traced (walkFunc lib config)) path (pruneExcluded lib config n) st
        = walkDir lib (traced (walkFunc lib config)) path n st
  | .mk d view readDirErr dirs, path, st => by
    by_cases h : d.isDir = true ∧ shouldExcludeDir lib d.name config.excludeDirs = true
    · simp [pruneExcluded, h, walkDir, traced, walkFunc_eq, prunes]
    · have ih := walkDirs_pruneExcluded lib config dirs path
      simp [pruneExcluded, h, walkDir, ih]
/-- The walk of the entries of a directory does not see what lies beneath
excluded directories. -/
theorem walkDirs_pruneExcluded (lib : Lib) (config : Config) :
    ∀ (ns : List Node) (path : Bytes) (st : State × List (Bytes × Visit)),
      walkDirs lib (traced (walkFunc lib config)) path (pruneExcludedAll lib config ns) st
        = walkDirs lib (traced (walkFunc lib config)) path ns st
  | [], path, st => by simp [pruneExcludedAll]
  | d1 :: rest, path, st => by
    have ih1 := walkDir_pruneExcluded lib config d1 (lib.join path d1.entry.name)
    have ih2 := walkDirs_pruneExcluded lib config rest path
    simp [pruneExcludedAll, walkDirs, pruneExcluded_entry, ih1, ih2]
end

/-- The walk from the root does not see what lies beneath excluded
directories. -/
theorem WalkDir_pruneExcluded (lib : Lib) (config : Config) (root : Bytes) (lstat : Option Node)
    (st : State × List (Bytes × Visit)) :
    WalkDir lib (traced (walkFunc lib config)) root (lstat.map (pruneExcluded lib config)) st
      = WalkDir lib (traced (walkFunc lib config)) root lstat st := by
  cases lstat with
  | none => rfl
  | some n => simp [WalkDir, walkDir_pruneExcluded]

/-! ## The claims of the specification -/

/-- Nothing is contained in the empty list. -/
theorem contains_nil (lib : Lib) (item : Bytes) : contains lib [] item = false := rfl

/-- The predicate `extensionAllowed` of the specification holds exactly when
the extension is not in the exclude list and, for a non-empty include list, is
in the include list. -/
theorem extensionAllowed_iff (lib : Lib) (path : Bytes) (includeList excludeList : List Bytes) :
    extensionAllowed lib path includeList excludeList = true ↔
      (contains lib excludeList (lib.toLower (filepathExt lib path)) = false
        ∧ (includeList ≠ [] →
            contains lib includeList (lib.toLower (filepathExt lib path)) = true)) := by
  unfold extensionAllowed
  cases excludeList with
  | nil =>
    cases hc : contains lib includeList (lib.toLower (filepathExt lib path)) <;>
      simp [contains_nil, hc]
  | cons x xs =>
    cases hx : contains lib (x :: xs) (lib.toLower (filepathExt lib path)) <;>
      cases hc : contains lib includeList (lib.toLower (filepathExt lib path)) <;>
      simp [hx, hc]

/-- A path whose extension is not allowed emits nothing. -/
theorem emitted_of_not_allowed (lib : Lib) (config : Config) (path : Bytes) (v : Visit)
    (h : extensionAllowed lib path config.includeExts config.excludeExts = false) :
    emitted lib config (path, v) = none := by
  cases v with
  | failed d => rfl
  | ok d view =>
    simp only [emitted, h]
    split_ifs <;> rfl

/-- What a file entry that the symlink policy does not skip emits. -/
theorem emitted_file (lib : Lib) (config : Config) (path : Bytes) (d : DirEntry) (view : PathView)
    (hfile : d.isDir = false)
    (hsym : ¬ (d.typ = FileMode.symlink ∧ config.followSymlinks = false)) :
    emitted lib config (path, .ok d view) =
      if extensionAllowed lib path config.includeExts config.excludeExts = true
          ∧ (∃ size, d.info = some size ∧ size ≤ config.maxFileSize)
          ∧ isBinaryFile view = false
      then (osReadFile view).map (entryBlock path) else none := by
  simp only [emitted, hsym, hfile, if_false]
  cases ha : extensionAllowed lib path config.includeExts config.excludeExts
  · simp
  · cases hi : d.info with
    | none => simp
    | some size =>
      by_cases hs : size ≤ config.maxFileSize
      · by_cases hb : isBinaryFile view = false
        · simp [hs, hb]
        · simp [hs, hb]
      · simp [hs]

/-- Two entry blocks of one path are equal only for equal contents. -/
theorem entryBlock_injective (path a b : Bytes) (h : entryBlock path a = entryBlock path b) :
    a = b := by
  simpa [entryBlock] using h

/-- C7: for an entry that is a symbolic link, with `followSymlinks` false the
callback returns `nil` and writes nothing, whatever the other filters say;
with `followSymlinks` true it does exactly what it does for a regular file
with the same name, metadata and content, so the link is emitted exactly when
it passes the extension, size, binary and readability checks. -/
theorem c7_symlink_policy (lib : Lib) (config : Config) (path : Bytes) (d : DirEntry)
    (view : PathView) (s : State) (hlink : d.typ = FileMode.symlink) :
    (config.followSymlinks = false → walkFunc lib config path (.ok d view) s = (s, none))
    ∧ (config.followSymlinks = true →
        walkFunc lib config path (.ok d view) s
            = walkFunc lib config path (.ok { d with typ := FileMode.regular } view) s
        ∧ (∀ content : Bytes,
            walkFunc lib config path (.ok d view) s
                = ({ writer := s.writer ++ entryBlock path content,
                     fileCount := s.fileCount + 1 }, none)
              ↔ (extensionAllowed lib path config.includeExts config.excludeExts = true
                  ∧ (∃ size, d.info = some size ∧ size ≤ config.maxFileSize)
                  ∧ isBinaryFile view = false
                  ∧ osReadFile view = some content))
        ∧ ((¬ ∃ content : Bytes,
              extensionAllowed lib path config.includeExts config.excludeExts = true
                ∧ (∃ size, d.info = some size ∧ size ≤ config.maxFileSize)
                ∧ isBinaryFile view = false
                ∧ osReadFile view = some content)
            → walkFunc lib config path (.ok d view) s = (s, none))) := by
  have hnd : d.isDir = false := by simp [DirEntry.isDir, hlink]
  have hpr : prunes lib config (.ok d view) = false := by simp [prunes, hnd]
  constructor
  · intro hf
    simp [walkFunc, hlink, hf]
  · intro hf
    have hsym : ¬ (d.typ = FileMode.symlink ∧ config.followSymlinks = false) := by simp [hf]
    have hwf : walkFunc lib config path (.ok d view) s
        = (appendBlock s (if extensionAllowed lib path config.includeExts config.excludeExts = true
              ∧ (∃ size, d.info = some size ∧ size ≤ config.maxFileSize)
              ∧ isBinaryFile view = false
            then (osReadFile view).map (entryBlock path) else none), none) := by
      rw [walkFunc_eq, hpr, emitted_file lib config path d view hnd hsym]
      simp
    refine ⟨?_, ?_, ?_⟩
    · simp [walkFunc, hlink, hf, DirEntry.isDir]
    · intro content
      rw [hwf]
      by_cases hc : extensionAllowed lib path config.includeExts config.excludeExts = true
          ∧ (∃ size, d.info = some size ∧ size ≤ config.maxFileSize)
          ∧ isBinaryFile view = false
      · rw [if_pos hc]
        cases hr : osReadFile view with
        | none =>
          simp only [Option.map_none', appendBlock]
          constructor
          · intro h
            have := congrArg State.fileCount (congrArg Prod.fst h)
            simp at this
          · rintro ⟨_, _, _, h⟩
            cases h
        | some c =>
          simp only [Option.map_some', appendBlock]
          constructor
          · intro h
            have hw := congrArg State.writer (congrArg Prod.fst h)
            simp only [List.append_cancel_left_eq] at hw
            exact ⟨hc.1, hc.2.1, hc.2.2, congrArg some (entryBlock_injective path c content hw)⟩
          · rintro ⟨_, _, _, h⟩
            cases h
            rfl
      · rw [if_neg hc]
        simp only [appendBlock]
        constructor
        · intro h
          have := congrArg State.fileCount (congrArg Prod.fst h)
          simp at this
        · rintro ⟨h1, h2, h3, _⟩
          exact absurd ⟨h1, h2, h3⟩ hc
    · intro hno
      rw [hwf]
      by_cases hc : extensionAllowed lib path config.includeExts config.excludeExts = true
          ∧ (∃ size, d.info = some size ∧ size ≤ config.maxFileSize)
          ∧ isBinaryFile view = false
      · rw [if_pos hc]
        cases hr : osReadFile view with
        | none => rfl
        | some c => exact absurd ⟨c, hc.1, hc.2.1, hc.2.2, hr⟩ hno
      · rw [if_neg hc]
        rfl

/-- The sniffer on a file that can be opened and read and is not empty. -/
theorem isBinaryFile_readable (view : PathView) (hopen : view.canOpen = true)
    (hread : view.canRead = true) (hne : view.content ≠ []) :
    isBinaryFile view = true ↔ ∃ i, i < 512 ∧ view.content[i]? = some 0 := by
  simp only [isBinaryFile, fileRead, hopen, hread, hne, if_false, Bool.true_eq_false,
    List.length_replicate, List.any_eq_true, List.mem_range, beq_iff_eq]
  constructor
  · rintro ⟨i, hi, h0⟩
    have hi1 : i < 512 := lt_of_lt_of_le hi (min_le_left _ _)
    have hi2 : i < view.content.length := lt_of_lt_of_le hi (min_le_right _ _)
    refine ⟨i, hi1, ?_⟩
    have hlen : i < (List.take (min 512 view.content.length) view.content).length := by
      simp [List.length_take]; omega
    rw [List.getD_eq_getElem?_getD, List.getElem?_append_left hlen, List.getElem?_take,
      if_pos hi, List.getElem?_eq_getElem hi2] at h0
    rw [List.getElem?_eq_getElem hi2]
    simpa using h0
  · rintro ⟨i, hi, h0⟩
    have hi2 : i < view.content.length := by
      by_contra hc
      rw [List.getElem?_eq_none (not_lt.mp hc)] at h0
      cases h0
    have hmin : i < min 512 view.content.length := lt_min hi hi2
    refine ⟨i, hmin, ?_⟩
    have hlen : i < (List.take (min 512 view.content.length) view.content).length := by
      simp [List.length_take]; omega
    rw [List.getD_eq_getElem?_getD, List.getElem?_append_left hlen, List.getElem?_take,
      if_pos hmin, h0]
    rfl

/-- The callback on a file entry that the symlink policy does not skip. -/
theorem walkFunc_file (lib : Lib) (config : Config) (path : Bytes) (d : DirEntry) (view : PathView)
    (s : State) (hfile : d.isDir = false)
    (hsym : ¬ (d.typ = FileMode.symlink ∧ config.followSymlinks = false)) :
    walkFunc lib config path (.ok d view) s
      = (appendBlock s (if extensionAllowed lib path config.includeExts config.excludeExts = true
            ∧ (∃ size, d.info = some size ∧ size ≤ config.maxFileSize)
            ∧ isBinaryFile view = false
          then (osReadFile view).map (entryBlock path) else none), none) := by
  rw [walkFunc_eq, emitted_file lib config path d view hfile hsym]
  simp [prunes, hfile]

/-- C5: for a file that can be opened and read and is not empty,
`isBinaryFile` returns true exactly when one of its first 512 bytes (of all
its bytes when it is shorter) is the NUL byte.  A file classified as binary is
not emitted.  A file whose NUL bytes all lie at offset 512 or later is
classified as not binary, and the callback emits it when the extension and
size checks pass. -/
theorem c5_binary_sniff (view : PathView) (hopen : view.canOpen = true)
    (hread : view.canRead = true) (hne : view.content ≠ []) :
    (isBinaryFile view = true ↔ ∃ i, i < 512 ∧ view.content[i]? = some 0)
    ∧ (isBinaryFile view = true →
        ∀ (lib : Lib) (config : Config) (path : Bytes) (d : DirEntry) (s : State),
          d.isDir = false → walkFunc lib config path (.ok d view) s = (s, none))
    ∧ ((∀ i, view.content[i]? = some 0 → 512 ≤ i) →
        isBinaryFile view = false
        ∧ ∀ (lib : Lib) (config : Config) (path : Bytes) (d : DirEntry) (s : State) (size : Int),
            d.isDir = false →
            ¬ (d.typ = FileMode.symlink ∧ config.followSymlinks = false) →
            extensionAllowed lib path config.includeExts config.excludeExts = true →
            d.info = some size → size ≤ config.maxFileSize →
            walkFunc lib config path (.ok d view) s
              = ({ writer := s.writer ++ entryBlock path view.content,
                   fileCount := s.fileCount + 1 }, none)) := by
  have hiff := isBinaryFile_readable view hopen hread hne
  refine ⟨hiff, ?_, ?_⟩
  · intro hb lib config path d s hfile
    by_cases hsym : d.typ = FileMode.symlink ∧ config.followSymlinks = false
    · simp [walkFunc, hsym]
    · rw [walkFunc_file lib config path d view s hfile hsym]
      simp [hb, appendBlock]
  · intro hlate
    have hb : isBinaryFile view = false := by
      cases h : isBinaryFile view
      · rfl
      · obtain ⟨i, hi, h0⟩ := hiff.mp h
        have := hlate i h0
        omega
    refine ⟨hb, ?_⟩
    intro lib config path d s size hfile hsym hext hinfo hsize
    rw [walkFunc_file lib config path d view s hfile hsym]
    have hc : extensionAllowed lib path config.includeExts config.excludeExts = true
        ∧ (∃ size, d.info = some size ∧ size ≤ config.maxFileSize)
        ∧ isBinaryFile view = false := ⟨hext, ⟨size, hinfo, hsize⟩, hb⟩
    rw [if_pos hc]
    simp [osReadFile, hopen, hread, appendBlock]

/-- C6: for a file entry that passes the symlink, extension and binary checks
and whose content can be read, the callback emits it when `info.Size()` equals
`maxFileSize` and writes nothing when it is `maxFileSize + 1`; in general it
emits exactly when the size is not greater than `maxFileSize`.  The two
`int64` values are only compared, so the statement is over the integers. -/
theorem c6_size_bound (lib : Lib) (config : Config) (path : Bytes) (d : DirEntry)
    (view : PathView) (s : State) (content : Bytes)
    (hfile : d.isDir = false)
    (hsym : ¬ (d.typ = FileMode.symlink ∧ config.followSymlinks = false))
    (hext : extensionAllowed lib path config.includeExts config.excludeExts = true)
    (hbin : isBinaryFile view = false) (hread : osReadFile view = some content) :
    (d.info = some config.maxFileSize →
        walkFunc lib config path (.ok d view) s
          = ({ writer := s.writer ++ entryBlock path content,
               fileCount := s.fileCount + 1 }, none))
    ∧ (d.info = some (config.maxFileSize + 1) →
        walkFunc lib config path (.ok d view) s = (s, none))
    ∧ (∀ size : Int, d.info = some size →
        (size ≤ config.maxFileSize →
          walkFunc lib config path (.ok d view) s
            = ({ writer := s.writer ++ entryBlock path content,
                 fileCount := s.fileCount + 1 }, none))
        ∧ (size > config.maxFileSize →
          walkFunc lib config path (.ok d view) s = (s, none))) := by
  have key : ∀ size : Int, d.info = some size →
      (size ≤ config.maxFileSize →
        walkFunc lib config path (.ok d view) s
          = ({ writer := s.writer ++ entryBlock path content,
               fileCount := s.fileCount + 1 }, none))
      ∧ (size > config.maxFileSize →
        walkFunc lib config path (.ok d view) s = (s, none)) := by
    intro size hinfo
    rw [walkFunc_file lib config path d view s hfile hsym]
    constructor
    · intro hle
      have hc : extensionAllowed lib path config.includeExts config.excludeExts = true
          ∧ (∃ size, d.info = some size ∧ size ≤ config.maxFileSize)
          ∧ isBinaryFile view = false := ⟨hext, ⟨size, hinfo, hle⟩, hbin⟩
      rw [if_pos hc, hread]
      rfl
    · intro hgt
      have hc : ¬ (extensionAllowed lib path config.includeExts config.excludeExts = true
          ∧ (∃ size, d.info = some size ∧ size ≤ config.maxFileSize)
          ∧ isBinaryFile view = false) := by
        rintro ⟨_, ⟨sz, h1, h2⟩, _⟩
        rw [hinfo] at h1
        cases h1
        exact absurd h2 (not_le.mpr hgt)
      rw [if_neg hc]
      rfl
  refine ⟨fun h => (key _ h).1 le_rfl, fun h => (key _ h).2 (by omega), key⟩

/-- The outcome of `extractFiles` when the output file can be created. -/
theorem extractFiles_eq (lib : Lib) (config : Config) (world : World)
    (hcreate : world.createFails = false) :
    extractFiles lib config world =
      { err := none,
        report := some (header config world
          ++ ((visits lib config world).filterMap (emitted lib config)).flatten
          ++ footer world ((visits lib config world).filterMap (emitted lib config)).length) } := by
  simp only [extractFiles, hcreate, run_eq, applyVisits_writer]
  simp

/-- C8: a per-entry failure is not fatal.  On a visit error, and for a file
entry whose info cannot be obtained, whose size exceeds `maxFileSize`, that is
binary, or whose content cannot be read, the callback returns `nil` and leaves
the report and the count unchanged.  `extractFiles` returns an error only when
the output file cannot be created or the walk returns an error; the walk
driven by this callback returns none, so the run fails exactly when the output
file cannot be created. -/
theorem c8_per_entry_failures (lib : Lib) (config : Config) (path : Bytes) (s : State) :
    (∀ d : Option DirEntry, walkFunc lib config path (.failed d) s = (s, none))
    ∧ (∀ (d : DirEntry) (view : PathView), d.isDir = false → d.info = none →
        walkFunc lib config path (.ok d view) s = (s, none))
    ∧ (∀ (d : DirEntry) (view : PathView) (size : Int), d.isDir = false →
        d.info = some size → size > config.maxFileSize →
        walkFunc lib config path (.ok d view) s = (s, none))
    ∧ (∀ (d : DirEntry) (view : PathView), d.isDir = false → isBinaryFile view = true →
        walkFunc lib config path (.ok d view) s = (s, none))
    ∧ (∀ (d : DirEntry) (view : PathView), d.isDir = false → osReadFile view = none →
        walkFunc lib config path (.ok d view) s = (s, none))
    ∧ (∀ world : World, (extractFiles lib config world).err ≠ none →
        world.createFails = true
          ∨ (WalkDir lib (walkFunc lib config) config.inputDir world.root
              { writer := header config world, fileCount := 0 }).2 ≠ none)
    ∧ (∀ world : World,
        (WalkDir lib (walkFunc lib config) config.inputDir world.root
              { writer := header config world, fileCount := 0 }).2 = none)
    ∧ (∀ world : World, (extractFiles lib config world).err ≠ none ↔ world.createFails = true) := by
  have hskip : ∀ (d : DirEntry) (view : PathView), d.isDir = false →
      (extensionAllowed lib path config.includeExts config.excludeExts = true
          ∧ (∃ size, d.info = some size ∧ size ≤ config.maxFileSize)
          ∧ isBinaryFile view = false → osReadFile view = none) →
      walkFunc lib config path (.ok d view) s = (s, none) := by
    intro d view hfile hcond
    by_cases hsym : d.typ = FileMode.symlink ∧ config.followSymlinks = false
    · simp [walkFunc, hsym]
    · rw [walkFunc_file lib config path d view s hfile hsym]
      by_cases hc : extensionAllowed lib path config.includeExts config.excludeExts = true
          ∧ (∃ size, d.info = some size ∧ size ≤ config.maxFileSize)
          ∧ isBinaryFile view = false
      · rw [if_pos hc, hcond hc]
        rfl
      · rw [if_neg hc]
        rfl
  have hfatal : ∀ world : World,
      (extractFiles lib config world).err ≠ none ↔ world.createFails = true := by
    intro world
    cases hc : world.createFails
    · rw [extractFiles_eq lib config world hc]
      simp
    · simp [extractFiles, hc]
  refine ⟨fun d => rfl, ?_, ?_, ?_, ?_, ?_, ?_, hfatal⟩
  · intro d view hfile hinfo
    apply hskip d view hfile
    rintro ⟨_, ⟨sz, h, _⟩, _⟩
    rw [hinfo] at h
    cases h
  · intro d view size hfile hinfo hgt
    apply hskip d view hfile
    rintro ⟨_, ⟨sz, h, hle⟩, _⟩
    rw [hinfo] at h
    cases h
    exact absurd hle (not_le.mpr hgt)
  · intro d view hfile hb
    apply hskip d view hfile
    rintro ⟨_, _, h⟩
    rw [hb] at h
    cases h
  · intro d view hfile hr
    exact hskip d view hfile (fun _ => hr)
  · intro world herr
    exact Or.inl ((hfatal world).mp herr)
  · intro world
    rw [run_eq]

/-- The callback does not depend on `includeDirs`. -/
theorem walkFunc_includeDirs (lib : Lib) (config : Config) (dirs : List Bytes) :
    walkFunc lib { config with includeDirs := dirs } = walkFunc lib config := by
  funext path v s
  rw [walkFunc_eq, walkFunc_eq]
  cases v <;> rfl

/-- C4: include-directory filtering never prunes.  For a directory entry that
`excludeDirs` does not exclude, the callback returns `nil` and writes nothing
under either of two configurations that differ only in `includeDirs`; for
such configurations the sequence of calls of the callback and the whole
outcome of `extractFiles` are the same. -/
theorem c4_include_dirs_never_prune (lib : Lib) (config1 config2 : Config)
    (hdiff : config2 = { config1 with includeDirs := config2.includeDirs }) :
    (∀ (path : Bytes) (d : DirEntry) (view : PathView) (s : State),
        d.isDir = true → shouldExcludeDir lib d.name config1.excludeDirs = false →
        walkFunc lib config1 path (.ok d view) s = (s, none)
          ∧ walkFunc lib config2 path (.ok d view) s = (s, none))
    ∧ (∀ world : World,
        visits lib config1 world = visits lib config2 world
          ∧ extractFiles lib config1 world = extractFiles lib config2 world) := by
  have hwf : walkFunc lib config2 = walkFunc lib config1 := by
    rw [hdiff]
    exact walkFunc_includeDirs lib config1 _
  have hin : config2.inputDir = config1.inputDir := by rw [hdiff]
  have hhd : ∀ world, header config2 world = header config1 world := by
    intro world
    simp [header, hin]
  constructor
  · intro path d view s hd hx
    have h1 : walkFunc lib config1 path (.ok d view) s = (s, none) := by
      rw [walkFunc_eq]
      simp [prunes, hd, hx, emitted, appendBlock]
    rw [hwf]
    exact ⟨h1, h1⟩
  · intro world
    constructor
    · simp [visits, hwf, hin, hhd]
    · simp [extractFiles, hwf, hin, hhd]

/-- C3: for a directory entry whose name `shouldExcludeDir` finds in
`excludeDirs`, the callback returns `filepath.SkipDir` and writes nothing; the
walker then calls the callback for nothing beneath the directory, whatever it
contains, leaves the state as it was and goes on with the siblings; and the
calls made and the outcome of a whole run are those of the tree in which
nothing lies beneath the excluded directories. -/
theorem c3_excluded_dir_pruned (lib : Lib) (config : Config) (path : Bytes) (d : DirEntry)
    (view : PathView) (s : State)
    (hdir : d.isDir = true) (hex : shouldExcludeDir lib d.name config.excludeDirs = true) :
    walkFunc lib config path (.ok d view) s = (s, some WalkErr.skipDir)
    ∧ (∀ (readDirErr : Bool) (children : List Node) (log : List (Bytes × Visit)),
        walkDir lib (traced (walkFunc lib config)) path (.mk d view readDirErr children) (s, log)
          = ((s, log ++ [(path, .ok d view)]), none))
    ∧ (∀ (readDirErr : Bool) (children : List Node),
        walkDir lib (walkFunc lib config) path (.mk d view readDirErr children) s = (s, none))
    ∧ (∀ world : World,
        visits lib config { world with root := world.root.map (pruneExcluded lib config) }
            = visits lib config world
          ∧ extractFiles lib config
              { world with root := world.root.map (pruneExcluded lib config) }
            = extractFiles lib config world) := by
  have h1 : walkFunc lib config path (.ok d view) s = (s, some WalkErr.skipDir) := by
    rw [walkFunc_eq]
    simp [prunes, hdir, hex, emitted, isDir_not_symlink d hdir, appendBlock]
  refine ⟨h1, ?_, ?_, ?_⟩
  · intro readDirErr children log
    simp [walkDir, traced, h1, hdir]
  · intro readDirErr children
    simp [walkDir, h1, hdir]
  · intro world
    have hv : visits lib config { world with root := world.root.map (pruneExcluded lib config) }
        = visits lib config world := by
      simp [visits, header, WalkDir_pruneExcluded]
    refine ⟨hv, ?_⟩
    rcases Bool.eq_false_or_eq_true world.createFails with hc | hc
    · simp [extractFiles, hc]
    · rw [extractFiles_eq lib config world hc,
        extractFiles_eq lib config
          { world with root := world.root.map (pruneExcluded lib config) } hc, hv]
      simp [header, footer]

set_option maxRecDepth 100000 in
/-- C1, as stated, fails: three files that are in the tree and meet the four
conditions of the claim have no entry in the report, their path does not occur
in it.  `src/vendor/c.go` lies beneath an excluded directory; `src/l.go` is a
symbolic link and `followSymlinks` is false; `src/a.go` cannot be opened. -/
theorem c1_counterexample :
    ((bytes "src/vendor/c.go", ({ name := bytes "c.go", typ := FileMode.regular, info := some 10 } : DirEntry),
          ({ canOpen := true, canRead := true, content := bytes "package c\n" } : PathView))
        ∈ allEntries unixLib (bytes "src") sampleTree
      ∧ meetsStatedConditions unixLib sampleConfig (bytes "src/vendor/c.go")
          { name := bytes "c.go", typ := FileMode.regular, info := some 10 }
          { canOpen := true, canRead := true, content := bytes "package c\n" } = true
      ∧ ¬ (bytes "src/vendor/c.go"
            <:+: (extractFiles unixLib sampleConfig sampleWorld).report.getD []))
    ∧ ((linkWorld.root.map (allEntries unixLib (bytes "src")))
          = some [(bytes "src", (directory "src" []).entry, dirView),
                  (bytes "src/l.go", linkEntry, goView)]
      ∧ meetsStatedConditions unixLib sampleConfig (bytes "src/l.go") linkEntry goView = true
      ∧ ¬ (bytes "src/l.go" <:+: (extractFiles unixLib sampleConfig linkWorld).report.getD []))
    ∧ ((lockedWorld.root.map (allEntries unixLib (bytes "src")))
          = some [(bytes "src", (directory "src" []).entry, dirView),
                  (bytes "src/a.go", goEntry, lockedView)]
      ∧ meetsStatedConditions unixLib sampleConfig (bytes "src/a.go") goEntry lockedView = true
      ∧ ¬ (bytes "src/a.go" <:+: (extractFiles unixLib sampleConfig lockedWorld).report.getD [])) := by
  decide

/-- The function `contains` finds an item exactly when `strings.EqualFold`
matches it with a member of the list. -/
theorem contains_iff (lib : Lib) (item : Bytes) :
    ∀ l : List Bytes, contains lib l item = true ↔ ∃ x ∈ l, lib.equalFold x item = true
  | [] => by simp [contains]
  | x :: rest => by
    have ih := contains_iff lib item rest
    by_cases hx : lib.equalFold x item = true
    · simp [contains, hx]
    · simp [contains, hx, ih]

/-- The function `contains` fails exactly when `strings.EqualFold` matches the
item with no member of the list. -/
theorem contains_false_iff (lib : Lib) (item : Bytes) (l : List Bytes) :
    contains lib l item = false ↔ ∀ x ∈ l, lib.equalFold x item = false := by
  have h := contains_iff lib item l
  cases hc : contains lib l item
  · simp only [true_iff]
    intro x hx
    cases hf : lib.equalFold x item
    · rfl
    · have := h.mpr ⟨x, hx, hf⟩
      rw [hc] at this
      cases this
  · simp only [Bool.true_eq_false, false_iff]
    obtain ⟨x, hx, hf⟩ := h.mp hc
    intro hall
    rw [hall x hx] at hf
    cases hf

/-- The function `shouldExcludeDir` answers true exactly when `strings.EqualFold`
matches the name with a member of the list. -/
theorem shouldExcludeDir_iff (lib : Lib) (dirName : Bytes) :
    ∀ l : List Bytes,
      shouldExcludeDir lib dirName l = true ↔ ∃ x ∈ l, lib.equalFold dirName x = true
  | [] => by simp [shouldExcludeDir]
  | x :: rest => by
    have ih := shouldExcludeDir_iff lib dirName rest
    by_cases hx : lib.equalFold dirName x = true
    · simp [shouldExcludeDir, hx]
    · simp [shouldExcludeDir, hx, ih]

/-- The function `shouldExcludeDir` as a search of the list. -/
theorem shouldExcludeDir_eq_any (lib : Lib) (dirName : Bytes) (l : List Bytes) :
    shouldExcludeDir lib dirName l = l.any (fun x => lib.equalFold dirName x) := by
  cases h : shouldExcludeDir lib dirName l
  · symm
    rw [List.any_eq_false]
    intro x hx hf
    have := (shouldExcludeDir_iff lib dirName l).mpr ⟨x, hx, hf⟩
    rw [h] at this
    cases this
  · symm
    rw [List.any_eq_true]
    exact (shouldExcludeDir_iff lib dirName l).mp h

/-- The loop of `filepath.Ext` passes over bytes that are neither a dot nor a
separator. -/
theorem extLoop_skip (lib : Lib) :
    ∀ (l before scanned : Bytes), (∀ c ∈ l, c ≠ 46 ∧ lib.isPathSeparator c = false) →
      extLoop lib (l ++ before) scanned = extLoop lib before (l.reverse ++ scanned)
  | [], before, scanned, _ => by simp
  | c :: l, before, scanned, h => by
    have hc := h c (List.mem_cons_self _ _)
    have hl : ∀ x ∈ l, x ≠ 46 ∧ lib.isPathSeparator x = false :=
      fun x hx => h x (List.mem_cons_of_mem _ hx)
    have ih := extLoop_skip lib l before (c :: scanned) hl
    simp [extLoop, hc.1, hc.2, ih]

mutual
/-- An entry below a node that lies beneath an excluded directory is not
kept. -/
theorem placedEntries_beneath (lib : Lib) (config : Config) :
    ∀ (n : Node) (path : Bytes) (above : List Bytes),
      above.any (fun name => config.excludeDirs.any (fun x => lib.equalFold name x)) = true →
      (placedEntries lib path above n).filter (fun e => !e.beneathExcluded lib config) = []
  | .mk d view readDirErr children, path, above, h => by
    have h2 : (above ++ [d.name]).any
        (fun name => config.excludeDirs.any (fun x => lib.equalFold name x)) = true := by
      rw [List.any_append, h]
      rfl
    have ih := placedEntriesOf_beneath lib config children path (above ++ [d.name]) h2
    by_cases hd : d.isDir = true
    · simp only [placedEntries, hd, if_true, List.filter_cons, Placed.beneathExcluded, h,
        Bool.not_true]
      simpa [Placed.beneathExcluded] using ih
    · simp [placedEntries, hd, Placed.beneathExcluded, h]
/-- An entry of a directory that lies beneath an excluded directory is not
kept. -/
theorem placedEntriesOf_beneath (lib : Lib) (config : Config) :
    ∀ (ns : List Node) (path : Bytes) (above : List Bytes),
      above.any (fun name => config.excludeDirs.any (fun x => lib.equalFold name x)) = true →
      (placedEntriesOf lib path above ns).filter (fun e => !e.beneathExcluded lib config) = []
  | [], path, above, h => by simp [placedEntriesOf]
  | n :: rest, path, above, h => by
    have ih1 := placedEntries_beneath lib config n (lib.join path n.entry.name) above h
    have ih2 := placedEntriesOf_beneath lib config rest path above h
    simp only [placedEntriesOf, List.filter_append, ih1, ih2, List.append_nil]
end

mutual
/-- The calls that the walk of a node makes without error are, in order, the
entries below and including the node that do not lie beneath an excluded
directory, each once. -/
theorem walkDir_reaches (lib : Lib) (config : Config) :
    ∀ (n : Node) (path : Bytes) (above : List Bytes),
      above.any (fun name => config.excludeDirs.any (fun x => lib.equalFold name x)) = false →
      ∃ visited : List (Bytes × Visit),
        (∀ (s : State) (log : List (Bytes × Visit)),
          walkDir lib (traced (walkFunc lib config)) path n (s, log)
            = ((applyVisits lib config s visited, log ++ visited), none))
        ∧ visited.filterMap okCall
            = ((placedEntries lib path above n).filter
                (fun e => !e.beneathExcluded lib config)).map (fun e => (e.path, e.d, e.view))
  | .mk d view readDirErr dirs, path, above, h => by
    have hkeep : (!Placed.beneathExcluded lib config
        { path := path, d := d, view := view, above := above }) = true := by
      simp [Placed.beneathExcluded, h]
    by_cases hd : d.isDir = true
    · by_cases hx : shouldExcludeDir lib d.name config.excludeDirs = true
      · have h2 : (above ++ [d.name]).any
            (fun name => config.excludeDirs.any (fun x => lib.equalFold name x)) = true := by
          rw [List.any_append, List.any_cons, ← shouldExcludeDir_eq_any, hx]
          simp
        have hb := placedEntriesOf_beneath lib config dirs path (above ++ [d.name]) h2
        refine ⟨[(path, .ok d view)], fun s log => ?_, ?_⟩
        · simp [walkDir, traced, walkFunc_eq, prunes, hd, hx, applyVisits]
        · simp only [placedEntries, hd, if_true, List.filter_cons, hkeep, hb]
          simp [okCall]
      · have h2 : (above ++ [d.name]).any
            (fun name => config.excludeDirs.any (fun x => lib.equalFold name x)) = false := by
          rw [List.any_append, List.any_cons, ← shouldExcludeDir_eq_any, h]
          simp [hx]
        obtain ⟨below, hbelow, hcalls⟩ :=
          walkDirs_reaches lib config dirs path (above ++ [d.name]) h2
        cases readDirErr with
        | false =>
          refine ⟨(path, .ok d view) :: below, fun s log => ?_, ?_⟩
          · simp [walkDir, traced, walkFunc_eq, prunes, hd, hx, applyVisits, hbelow]
          · simp only [placedEntries, hd, if_true, List.filter_cons, hkeep]
            simp [okCall, hcalls]
        | true =>
          refine ⟨(path, .ok d view) :: (path, .failed (some d)) :: below, fun s log => ?_, ?_⟩
          · simp [walkDir, traced, walkFunc_eq, prunes, hd, hx, applyVisits, hbelow]
          · simp only [placedEntries, hd, if_true, List.filter_cons, hkeep]
            simp [okCall, hcalls]
    · refine ⟨[(path, .ok d view)], fun s log => ?_, ?_⟩
      · simp [walkDir, traced, walkFunc_eq, prunes, hd, applyVisits]
      · simp only [placedEntries, hd, List.filter_cons, hkeep]
        simp [okCall]
/-- The calls that the walk of the entries of a directory makes without error
are, in order, the entries below them that do not lie beneath an excluded
directory, each once. -/
theorem walkDirs_reaches (lib : Lib) (config : Config) :
    ∀ (ns : List Node) (path : Bytes) (above : List Bytes),
      above.any (fun name => config.excludeDirs.any (fun x => lib.equalFold name x)) = false →
      ∃ visited : List (Bytes × Visit),
        (∀ (s : State) (log : List (Bytes × Visit)),
          walkDirs lib (traced (walkFunc lib config)) path ns (s, log)
            = ((applyVisits lib config s visited, log ++ visited), none))
        ∧ visited.filterMap okCall
            = ((placedEntriesOf lib path above ns).filter
                (fun e => !e.beneathExcluded lib config)).map (fun e => (e.path, e.d, e.view))
  | [], path, above, h => ⟨[], fun s log => by simp [walkDirs, applyVisits], by simp [placedEntriesOf]⟩
  | d1 :: rest, path, above, h => by
    obtain ⟨v1, h1, c1⟩ := walkDir_reaches lib config d1 (lib.join path d1.entry.name) above h
    obtain ⟨v2, h2, c2⟩ := walkDirs_reaches lib config rest path above h
    refine ⟨v1 ++ v2, fun s log => ?_, ?_⟩
    · simp [walkDirs, h1, h2, applyVisits_append]
    · simp only [placedEntriesOf, List.filterMap_append, List.filter_append, List.map_append, c1, c2]
end

/-- The calls that a run makes without error are, in order, the entries of
the tree that do not lie beneath an excluded directory, each once. -/
theorem visits_okCalls (lib : Lib) (config : Config) (world : World) :
    (visits lib config world).filterMap okCall
      = (keptEntries lib config world).map (fun e => (e.path, e.d, e.view)) := by
  cases hroot : world.root with
  | none =>
    simp [visits, keptEntries, treeEntries, hroot, WalkDir, traced, walkFunc_eq, prunes, okCall]
  | some n =>
    obtain ⟨v, hv, hc⟩ := walkDir_reaches lib config n config.inputDir [] (by simp)
    have hvis : visits lib config world = v := by
      simp [visits, hroot, WalkDir, hv]
    rw [hvis, hc]
    simp [keptEntries, treeEntries, hroot]

/-- A call made with an error emits nothing, so the blocks of a sequence of
calls are those of its calls made without error. -/
theorem filterMap_emitted (lib : Lib) (config : Config) :
    ∀ visited : List (Bytes × Visit),
      visited.filterMap (emitted lib config)
        = (visited.filterMap okCall).filterMap
            (fun c => emitted lib config (c.1, .ok c.2.1 c.2.2))
  | [] => rfl
  | (path, .ok d view) :: rest => by
    have ih := filterMap_emitted lib config rest
    cases h : emitted lib config (path, .ok d view) <;>
      simp [List.filterMap_cons, okCall, h, ih]
  | (path, .failed d) :: rest => by
    have ih := filterMap_emitted lib config rest
    have h : emitted lib config (path, .failed d) = none := rfl
    simp [List.filterMap_cons, okCall, h, ih]

/-- The blocks written during a run are those of the entries of the tree that
do not lie beneath an excluded directory, in depth-first order. -/
theorem visits_blocks (lib : Lib) (config : Config) (world : World) :
    (visits lib config world).filterMap (emitted lib config) = treeBlocks lib config world := by
  rw [filterMap_emitted, visits_okCalls, List.filterMap_map]
  rfl

mutual
/-- Forgetting the places of the entries below a node gives `allEntries`. -/
theorem placedEntries_forget (lib : Lib) :
    ∀ (n : Node) (path : Bytes) (above : List Bytes),
      (placedEntries lib path above n).map (fun e => (e.path, e.d, e.view))
        = allEntries lib path n
  | .mk d view readDirErr children, path, above => by
    have ih := placedEntriesOf_forget lib children path (above ++ [d.name])
    by_cases hd : d.isDir = true
    · simp [placedEntries, allEntries, hd, ih]
    · simp [placedEntries, allEntries, hd]
/-- Forgetting the places of the entries of a directory gives
`allEntriesOf`. -/
theorem placedEntriesOf_forget (lib : Lib) :
    ∀ (ns : List Node) (path : Bytes) (above : List Bytes),
      (placedEntriesOf lib path above ns).map (fun e => (e.path, e.d, e.view))
        = allEntriesOf lib path ns
  | [], path, above => by simp [placedEntriesOf, allEntriesOf]
  | n :: rest, path, above => by
    have ih1 := placedEntries_forget lib n (lib.join path n.entry.name) above
    have ih2 := placedEntriesOf_forget lib rest path above
    simp [placedEntriesOf, allEntriesOf, ih1, ih2]
end

/-- The outcome of `extractFiles` when the output file can be created, in
terms of the tree. -/
theorem extractFiles_tree (lib : Lib) (config : Config) (world : World)
    (hcreate : world.createFails = false) :
    extractFiles lib config world =
      { err := none,
        report := some (header config world ++ (treeBlocks lib config world).flatten
          ++ footer world (treeBlocks lib config world).length) } := by
  rw [extractFiles_eq lib config world hcreate, visits_blocks]

/-- The predicate `extensionAllowed` holds exactly when `strings.EqualFold`
matches the extension with no entry of the exclude list and, for a non-empty
include list, with an entry of the include list. -/
theorem extensionAllowed_mem (lib : Lib) (path : Bytes) (includeList excludeList : List Bytes) :
    extensionAllowed lib path includeList excludeList = true ↔
      ((∀ x ∈ excludeList, lib.equalFold x (lib.toLower (filepathExt lib path)) = false)
        ∧ (includeList ≠ [] →
            ∃ x ∈ includeList, lib.equalFold x (lib.toLower (filepathExt lib path)) = true)) := by
  rw [extensionAllowed_iff, contains_false_iff, contains_iff]

/-- C2: for a file entry that the other checks of the callback would let
through, the callback emits it exactly when `strings.EqualFold` matches the
lower-cased extension of its path with no entry of the exclude list and, for a
non-empty include list, with some entry of the include list; this is the
predicate `extensionAllowed` of the specification, and `contains` is that
case-insensitive membership.  The extension is the part of the path from the
last dot of its last element on, empty when that element has no dot.  A path
whose extension matches an entry of the exclude list, or matches no entry of a
non-empty include list, is never emitted, whatever the entry. -/
theorem c2_extension_check (lib : Lib) (config : Config) (path : Bytes) (d : DirEntry)
    (view : PathView) (s : State) (size : Int) (content : Bytes)
    (hfile : d.isDir = false)
    (hsym : ¬ (d.typ = FileMode.symlink ∧ config.followSymlinks = false))
    (hinfo : d.info = some size) (hsize : size ≤ config.maxFileSize)
    (hbin : isBinaryFile view = false) (hread : osReadFile view = some content) :
    (walkFunc lib config path (.ok d view) s
        = ({ writer := s.writer ++ entryBlock path content, fileCount := s.fileCount + 1 }, none)
      ↔ ((∀ x ∈ config.excludeExts,
            lib.equalFold x (lib.toLower (filepathExt lib path)) = false)
          ∧ (config.includeExts ≠ [] →
              ∃ x ∈ config.includeExts,
                lib.equalFold x (lib.toLower (filepathExt lib path)) = true)))
    ∧ (¬ ((∀ x ∈ config.excludeExts,
            lib.equalFold x (lib.toLower (filepathExt lib path)) = false)
          ∧ (config.includeExts ≠ [] →
              ∃ x ∈ config.includeExts,
                lib.equalFold x (lib.toLower (filepathExt lib path)) = true))
        → walkFunc lib config path (.ok d view) s = (s, none))
    ∧ (extensionAllowed lib path config.includeExts config.excludeExts = true
      ↔ ((∀ x ∈ config.excludeExts,
            lib.equalFold x (lib.toLower (filepathExt lib path)) = false)
          ∧ (config.includeExts ≠ [] →
              ∃ x ∈ config.includeExts,
                lib.equalFold x (lib.toLower (filepathExt lib path)) = true)))
    ∧ (∀ (l : List Bytes) (item : Bytes),
        contains lib l item = true ↔ ∃ x ∈ l, lib.equalFold x item = true)
    ∧ (∀ stem rest : Bytes, lib.isPathSeparator 46 = false →
        (∀ c ∈ rest, c ≠ 46 ∧ lib.isPathSeparator c = false) →
        filepathExt lib (stem ++ 46 :: rest) = 46 :: rest)
    ∧ (∀ (stem rest : Bytes) (c : Nat), lib.isPathSeparator c = true →
        (∀ x ∈ rest, x ≠ 46 ∧ lib.isPathSeparator x = false) →
        filepathExt lib (stem ++ c :: rest) = [])
    ∧ (∀ plain : Bytes, (∀ x ∈ plain, x ≠ 46 ∧ lib.isPathSeparator x = false) →
        filepathExt lib plain = [])
    ∧ (∀ (v : Visit) (s2 : State),
        (∃ x ∈ config.excludeExts,
          lib.equalFold x (lib.toLower (filepathExt lib path)) = true) →
          (walkFunc lib config path v s2).1 = s2)
    ∧ (∀ (v : Visit) (s2 : State), config.includeExts ≠ [] →
        (∀ x ∈ config.includeExts,
          lib.equalFold x (lib.toLower (filepathExt lib path)) = false) →
          (walkFunc lib config path v s2).1 = s2) := by
  have hiff := extensionAllowed_mem lib path config.includeExts config.excludeExts
  have hnone : ∀ (v : Visit) (s2 : State),
      extensionAllowed lib path config.includeExts config.excludeExts = false →
      (walkFunc lib config path v s2).1 = s2 := by
    intro v s2 h
    rw [walkFunc_eq, emitted_of_not_allowed lib config path v h]
    rfl
  have hpr : prunes lib config (.ok d view) = false := by simp [prunes, hfile]
  have hwf : walkFunc lib config path (.ok d view) s
      = (if extensionAllowed lib path config.includeExts config.excludeExts = true then
          { writer := s.writer ++ entryBlock path content, fileCount := s.fileCount + 1 }
         else s, none) := by
    rw [walkFunc_eq, hpr]
    cases ha : extensionAllowed lib path config.includeExts config.excludeExts
    · simp [emitted_of_not_allowed lib config path _ ha, appendBlock]
    · simp [emitted, hsym, hfile, ha, hinfo, hsize, hbin, hread, appendBlock]
  have hcont : ∀ (l : List Bytes) (item : Bytes),
      contains lib l item = true ↔ ∃ x ∈ l, lib.equalFold x item = true := by
    intro l item
    induction l with
    | nil => simp [contains]
    | cons x rest ih =>
      by_cases hx : lib.equalFold x item = true
      · simp [contains, hx]
      · simp [contains, hx, ih]
  have hscan : ∀ (rest before : Bytes),
      (∀ c ∈ rest, c ≠ 46 ∧ lib.isPathSeparator c = false) →
      extLoop lib (rest.reverse ++ before) [] = extLoop lib before rest := by
    intro rest before hrest
    have hr : ∀ c ∈ rest.reverse, c ≠ 46 ∧ lib.isPathSeparator c = false :=
      fun c hc => hrest c (List.mem_reverse.mp hc)
    simpa using extLoop_skip lib rest.reverse before [] hr
  have hdotted : ∀ stem rest : Bytes, lib.isPathSeparator 46 = false →
      (∀ c ∈ rest, c ≠ 46 ∧ lib.isPathSeparator c = false) →
      filepathExt lib (stem ++ 46 :: rest) = 46 :: rest := by
    intro stem rest hdot hrest
    simp only [filepathExt, List.reverse_append, List.reverse_cons, List.append_assoc,
      List.singleton_append]
    rw [hscan rest _ hrest]
    simp [extLoop, hdot]
  have hsepar : ∀ (stem rest : Bytes) (c : Nat), lib.isPathSeparator c = true →
      (∀ x ∈ rest, x ≠ 46 ∧ lib.isPathSeparator x = false) →
      filepathExt lib (stem ++ c :: rest) = [] := by
    intro stem rest c hsep hrest
    simp only [filepathExt, List.reverse_append, List.reverse_cons, List.append_assoc,
      List.singleton_append]
    rw [hscan rest _ hrest]
    simp [extLoop, hsep]
  have hplain : ∀ plain : Bytes, (∀ x ∈ plain, x ≠ 46 ∧ lib.isPathSeparator x = false) →
      filepathExt lib plain = [] := by
    intro plain h
    have := hscan plain [] h
    simp only [List.append_nil] at this
    rw [filepathExt, this]
    rfl
  refine ⟨?_, ?_, hiff, hcont, hdotted, hsepar, hplain, ?_, ?_⟩
  · rw [← hiff, hwf]
    cases ha : extensionAllowed lib path config.includeExts config.excludeExts
    · simp
      intro hc
      have := congrArg State.fileCount hc
      simp at this
    · simp
  · intro hn
    rw [← hiff] at hn
    rw [hwf, if_neg hn]
  · rintro v s2 ⟨x, hx, hf⟩
    apply hnone
    cases ha : extensionAllowed lib path config.includeExts config.excludeExts
    · rfl
    · rw [hiff] at ha
      rw [ha.1 x hx] at hf
      cases hf
  · intro v s2 hne hall
    apply hnone
    cases ha : extensionAllowed lib path config.includeExts config.excludeExts
    · rfl
    · rw [hiff] at ha
      obtain ⟨x, hx, hf⟩ := ha.2 hne
      rw [hall x hx] at hf
      cases hf

/-- C10: the callback returns `filepath.SkipDir` exactly for a call without
visit error on an entry that the symlink policy does not skip, that is a
directory, and whose name `strings.EqualFold` matches with an entry of
`excludeDirs`; in every other case it returns `nil`.  For an entry that is not
a directory it returns `nil`, and the loop over the entries of the enclosing
directory goes on with the next sibling. -/
theorem c10_prune_signal (lib : Lib) (config : Config) (path : Bytes) (v : Visit) (s : State) :
    ((walkFunc lib config path v s).2 = some WalkErr.skipDir ↔
        ∃ d view, v = .ok d view
          ∧ ¬ (d.typ = FileMode.symlink ∧ config.followSymlinks = false)
          ∧ d.isDir = true
          ∧ ∃ x ∈ config.excludeDirs, lib.equalFold d.name x = true)
    ∧ ((walkFunc lib config path v s).2 ≠ some WalkErr.skipDir →
        (walkFunc lib config path v s).2 = none)
    ∧ (∀ (d : DirEntry) (view : PathView), d.isDir = false →
        (walkFunc lib config path (.ok d view) s).2 = none)
    ∧ (∀ (d : DirEntry) (view : PathView) (readDirErr : Bool) (children rest : List Node)
        (dirPath : Bytes) (st : State), d.isDir = false →
        walkDirs lib (walkFunc lib config) dirPath (.mk d view readDirErr children :: rest) st
          = walkDirs lib (walkFunc lib config) dirPath rest
              (walkFunc lib config (lib.join dirPath d.name) (.ok d view) st).1) := by
  have hmem : ∀ (name : Bytes) (l : List Bytes),
      shouldExcludeDir lib name l = true ↔ ∃ x ∈ l, lib.equalFold name x = true := by
    intro name l
    induction l with
    | nil => simp [shouldExcludeDir]
    | cons x rest ih =>
      by_cases hx : lib.equalFold name x = true
      · simp [shouldExcludeDir, hx]
      · simp [shouldExcludeDir, hx, ih]
  refine ⟨?_, ?_, ?_, ?_⟩
  · rw [walkFunc_signal]
    cases v with
    | failed d => simp
    | ok d view =>
      by_cases h : d.isDir = true ∧ shouldExcludeDir lib d.name config.excludeDirs = true
          ∧ ¬ (d.typ = FileMode.symlink ∧ config.followSymlinks = false)
      · simp only [if_pos h, true_iff]
        exact ⟨d, view, rfl, h.2.2, h.1, (hmem d.name _).mp h.2.1⟩
      · simp only [if_neg h, false_iff]
        simp only [reduceCtorEq, false_iff]
        rintro ⟨d2, view2, heq, h1, h2, h3⟩
        cases heq
        exact h ⟨h2, (hmem d.name _).mpr h3, h1⟩
  · rw [walkFunc_eq]
    by_cases hp : prunes lib config v = true
    · simp [hp]
    · simp [hp]
  · intro d view hd
    rw [walkFunc_eq]
    simp [prunes, hd]
  · intro d view readDirErr children rest dirPath st hd
    simp [walkDirs, walkDir, Node.entry, walkFunc_eq, prunes, hd]

/-- The block an entry of the tree contributes, spelled out. -/
theorem block_iff (lib : Lib) (config : Config) (e : Placed) (block : Bytes) :
    e.block lib config = some block ↔
      ∃ content, block = entryBlock e.path content
        ∧ ¬ (e.d.typ = FileMode.symlink ∧ config.followSymlinks = false)
        ∧ e.d.isDir = false
        ∧ (∀ x ∈ config.excludeExts,
            lib.equalFold x (lib.toLower (filepathExt lib e.path)) = false)
        ∧ (config.includeExts ≠ [] →
            ∃ x ∈ config.includeExts,
              lib.equalFold x (lib.toLower (filepathExt lib e.path)) = true)
        ∧ (∃ size, e.d.info = some size ∧ size ≤ config.maxFileSize)
        ∧ isBinaryFile e.view = false
        ∧ osReadFile e.view = some content := by
  have hmem := extensionAllowed_mem lib e.path config.includeExts config.excludeExts
  unfold Placed.block
  by_cases hsym : e.d.typ = FileMode.symlink ∧ config.followSymlinks = false
  · constructor
    · intro h
      simp [emitted, hsym] at h
    · rintro ⟨_, _, h, _⟩
      exact absurd hsym h
  · cases hfile : e.d.isDir
    · rw [emitted_file lib config e.path e.d e.view hfile hsym]
      by_cases hc : extensionAllowed lib e.path config.includeExts config.excludeExts = true
          ∧ (∃ size, e.d.info = some size ∧ size ≤ config.maxFileSize)
          ∧ isBinaryFile e.view = false
      · rw [if_pos hc]
        constructor
        · intro h
          cases hr : osReadFile e.view with
          | none => rw [hr] at h; cases h
          | some c =>
            rw [hr] at h
            simp only [Option.map_some', Option.some.injEq] at h
            exact ⟨c, h.symm, hsym, rfl, (hmem.mp hc.1).1, (hmem.mp hc.1).2, hc.2.1, hc.2.2, rfl⟩
        · rintro ⟨c, hb, _, _, _, _, _, _, hr⟩
          rw [hr, hb]
          rfl
      · rw [if_neg hc]
        constructor
        · intro h; cases h
        · rintro ⟨c, _, _, _, h1, h2, h3, h4, _⟩
          exact absurd ⟨hmem.mpr ⟨h1, h2⟩, h3, h4⟩ hc
    · constructor
      · intro h
        simp [emitted, hsym, hfile] at h
      · rintro ⟨_, _, _, h, _⟩
        cases h

/-- C1, amended: every entry of the tree that does not lie beneath a directory
whose name matches an entry of `excludeDirs` is handed to the callback exactly
once, in the depth-first order of the tree.  Such an entry has its path and
its exact content written, as one entry block, when it is not a directory, the
symlink policy does not skip it, its lower-cased extension matches no entry of
the exclude list and, for a non-empty include list, an entry of the include
list, its info is available with a size within `maxFileSize`, `isBinaryFile`
does not flag it and its content can be read; otherwise it writes nothing.
The bytes written during the walk are these blocks, one per such entry, in
that order, and the count grows by their number; in the report of a run that
could create its output file they stand between the header and the footer. -/
theorem c1_tree_files_emitted_in_order (lib : Lib) (config : Config) (world : World)
    (s : State) :
    (visits lib config world).filterMap okCall
        = ((treeEntries lib config world).filter
            (fun e => !e.beneathExcluded lib config)).map (fun e => (e.path, e.d, e.view))
    ∧ (WalkDir lib (walkFunc lib config) config.inputDir world.root s).1
        = { writer := s.writer
              ++ (((treeEntries lib config world).filter
                    (fun e => !e.beneathExcluded lib config)).filterMap
                  (Placed.block lib config)).flatten,
            fileCount := s.fileCount
              + (((treeEntries lib config world).filter
                    (fun e => !e.beneathExcluded lib config)).filterMap
                  (Placed.block lib config)).length }
    ∧ (world.createFails = false →
        (extractFiles lib config world).report
          = some (header config world
              ++ (((treeEntries lib config world).filter
                    (fun e => !e.beneathExcluded lib config)).filterMap
                  (Placed.block lib config)).flatten
              ++ footer world
                  (((treeEntries lib config world).filter
                    (fun e => !e.beneathExcluded lib config)).filterMap
                  (Placed.block lib config)).length))
    ∧ (∀ (e : Placed) (block : Bytes),
        e.block lib config = some block ↔
          ∃ content, block = entryBlock e.path content
            ∧ ¬ (e.d.typ = FileMode.symlink ∧ config.followSymlinks = false)
            ∧ e.d.isDir = false
            ∧ (∀ x ∈ config.excludeExts,
                lib.equalFold x (lib.toLower (filepathExt lib e.path)) = false)
            ∧ (config.includeExts ≠ [] →
                ∃ x ∈ config.includeExts,
                  lib.equalFold x (lib.toLower (filepathExt lib e.path)) = true)
            ∧ (∃ size, e.d.info = some size ∧ size ≤ config.maxFileSize)
            ∧ isBinaryFile e.view = false
            ∧ osReadFile e.view = some content)
    ∧ (∀ e ∈ treeEntries lib config world, e.beneathExcluded lib config = false →
        ∀ block : Bytes, e.block lib config = some block →
          block ∈ ((treeEntries lib config world).filter
                    (fun e => !e.beneathExcluded lib config)).filterMap
                  (Placed.block lib config))
    ∧ (∀ e : Placed,
        e.beneathExcluded lib config = true ↔
          ∃ name ∈ e.above, ∃ x ∈ config.excludeDirs, lib.equalFold name x = true)
    ∧ (∀ n : Node, world.root = some n →
        (treeEntries lib config world).map (fun e => (e.path, e.d, e.view))
          = allEntries lib config.inputDir n) := by
  have hb : treeBlocks lib config world
      = ((treeEntries lib config world).filter
          (fun e => !e.beneathExcluded lib config)).filterMap (Placed.block lib config) := rfl
  refine ⟨visits_okCalls lib config world, ?_, ?_, block_iff lib config, ?_, ?_, ?_⟩
  · rw [run_eq, applyVisits_writer, visits_blocks, hb]
  · intro hcreate
    rw [extractFiles_tree lib config world hcreate, hb]
  · intro e he hk block hblock
    rw [List.mem_filterMap]
    exact ⟨e, List.mem_filter.mpr ⟨he, by simp [hk]⟩, hblock⟩
  · intro e
    simp [Placed.beneathExcluded]
  · intro n hroot
    simp only [treeEntries, hroot]
    exact placedEntries_forget lib n config.inputDir []

set_option maxRecDepth 100000 in
/-- C9, as stated, fails: the claim lists the footer as the three lines
`Extraction Summary`, `Files processed:` and `Completed:` right after the last
entry block, but the report of the sample tree and the report of an empty
directory are not the header, the blocks and those three lines; they have one
more newline byte in front of `Extraction Summary`. -/
theorem c9_counterexample :
    (extractFiles unixLib sampleConfig sampleWorld).report
        ≠ some (header sampleConfig sampleWorld
            ++ entryBlock (bytes "src/a.go") (bytes "package a\n")
            ++ statedFooter sampleWorld 1)
    ∧ (extractFiles unixLib sampleConfig sampleWorld).report
        = some (header sampleConfig sampleWorld
            ++ entryBlock (bytes "src/a.go") (bytes "package a\n")
            ++ [10] ++ statedFooter sampleWorld 1)
    ∧ (extractFiles unixLib sampleConfig emptyDirWorld).report
        ≠ some (header sampleConfig emptyDirWorld ++ statedFooter emptyDirWorld 0)
    ∧ (extractFiles unixLib sampleConfig emptyDirWorld).report
        = some (header sampleConfig emptyDirWorld ++ [10] ++ statedFooter emptyDirWorld 0) := by
  decide

/-- C9, amended: when the output file can be created, `extractFiles` returns
no error and the report consists of the header (title line, `Generated:`
line, `Source Directory:` line, fifty `=`, an empty line), then one block per
emitted file in the depth-first order of the tree, which is the order of the
visits (path, newline, empty line, the content verbatim, newline, empty line,
fifty `-`, empty line), then the footer, which is an empty line followed by
the lines `Extraction Summary`, `Files processed:` with the number of blocks
written, and `Completed:`.  The emitted files are the entries of the tree
outside excluded directories that pass the file branch of the callback.  For
an empty input directory the report is the header followed by the footer with
count 0. -/
theorem c9_report_bytes (lib : Lib) (config : Config) (world : World)
    (hcreate : world.createFails = false) :
    (extractFiles lib config world).err = none
    ∧ (extractFiles lib config world).report
        = some (header config world
            ++ (treeBlocks lib config world).flatten
            ++ footer world (treeBlocks lib config world).length)
    ∧ treeBlocks lib config world
        = ((treeEntries lib config world).filter
            (fun e => !e.beneathExcluded lib config)).filterMap (Placed.block lib config)
    ∧ treeBlocks lib config world = (visits lib config world).filterMap (emitted lib config)
    ∧ (∀ b ∈ treeBlocks lib config world,
        ∃ e ∈ treeEntries lib config world, ∃ content,
          e.beneathExcluded lib config = false ∧ e.d.isDir = false
            ∧ osReadFile e.view = some content ∧ b = entryBlock e.path content)
    ∧ header config world
        = bytes "File Content Extraction Report\n"
            ++ bytes "Generated: " ++ world.startStamp ++ [10]
            ++ bytes "Source Directory: " ++ config.inputDir ++ [10]
            ++ List.replicate 50 61 ++ [10, 10]
    ∧ (∀ path content : Bytes,
        entryBlock path content
          = path ++ [10, 10] ++ content ++ [10, 10] ++ List.replicate 50 45 ++ [10, 10])
    ∧ (∀ n : Nat,
        footer world n
          = [10] ++ bytes "Extraction Summary\n"
              ++ bytes "Files processed: " ++ bytes (toString n) ++ [10]
              ++ bytes "Completed: " ++ world.endStamp ++ [10])
    ∧ (∀ n : Nat, footer world n = [10] ++ statedFooter world n)
    ∧ (∀ (d : DirEntry) (view : PathView) (readDirErr : Bool),
        d.isDir = true → world.root = some (.mk d view readDirErr []) →
        (extractFiles lib config world).report
          = some (header config world ++ footer world 0)) := by
  have heq := extractFiles_tree lib config world hcreate
  refine ⟨by rw [heq], by rw [heq], rfl, (visits_blocks lib config world).symm, ?_, ?_, ?_, ?_,
    ?_, ?_⟩
  · intro b hb
    simp only [treeBlocks, keptEntries, List.mem_filterMap, List.mem_filter] at hb
    obtain ⟨e, ⟨he, hk⟩, hblock⟩ := hb
    obtain ⟨content, hbc, _, hfile, _, _, _, _, hr⟩ := (block_iff lib config e b).mp hblock
    refine ⟨e, he, content, ?_, hfile, hr, hbc⟩
    simpa using hk
  · simp [header, bytes]
  · intro path content
    simp [entryBlock, bytes]
  · intro n
    simp [footer, bytes]
  · intro n
    simp [footer, statedFooter, bytes]
  · intro d view readDirErr hdir hroot
    have hnone : treeBlocks lib config world = [] := by
      have hd : emitted lib config (config.inputDir, .ok d view) = none := by
        simp [emitted, hdir, isDir_not_symlink d hdir]
      simp [treeBlocks, keptEntries, treeEntries, hroot, placedEntries, placedEntriesOf, hdir,
        Placed.block, hd]
    rw [heq, hnone]
    simp

/-! ## The claims at concrete inputs -/

set_option maxRecDepth 100000 in
/-- The scenario of section 8 of the specification: the report has exactly
one entry, `src/a.go`, and the footer counts one file. -/
theorem sample_report :
    extractFiles unixLib sampleConfig sampleWorld
      = { err := none,
          report := some (bytes ("File Content Extraction Report\n"
            ++ "Generated: 2024-01-01 00:00:00\n"
            ++ "Source Directory: src\n"
            ++ "==================================================\n\n"
            ++ "src/a.go\n\npackage a\n\n\n"
            ++ "--------------------------------------------------\n\n"
            ++ "\nExtraction Summary\nFiles processed: 1\nCompleted: 2024-01-01 00:00:01\n")) } := by
  decide

set_option maxRecDepth 100000 in
/-- The calls of the callback in the scenario of section 8: the root, the two
files, and the excluded directory, nothing beneath it. -/
theorem sample_visits :
    (visits unixLib sampleConfig sampleWorld).map Prod.fst
      = [bytes "src", bytes "src/a.go", bytes "src/b.bin", bytes "src/vendor"] := by
  decide

set_option maxRecDepth 100000 in
/-- Witness of C3: the directory `Vendor` is excluded by the entry `vendor`,
and the walk of it writes nothing although it holds a Go file. -/
theorem c3_excluded_dir_pruned_witness :
    vendorEntry.isDir = true
    ∧ shouldExcludeDir unixLib vendorEntry.name sampleConfig.excludeDirs = true
    ∧ walkDir unixLib (walkFunc unixLib sampleConfig) (bytes "src/Vendor")
        (.mk vendorEntry dirView false [regularFile "c.go" (bytes "package c\n")]) emptyState
      = (emptyState, none) :=
  ⟨by decide, by decide,
    (c3_excluded_dir_pruned unixLib sampleConfig (bytes "src/Vendor") vendorEntry dirView
      emptyState (by decide) (by decide)).2.2.1 false _⟩

/-- Witness of C4: under the sample configuration and under the one that
differs from it in `includeDirs` the callback returns `nil` for the directory
`lib`, which the second does not list, and the two give the same outcome on
the sample tree. -/
theorem c4_include_dirs_never_prune_witness :
    includeDirConfig = { sampleConfig with includeDirs := includeDirConfig.includeDirs }
    ∧ (walkFunc unixLib sampleConfig (bytes "src/lib") (.ok libEntry dirView) emptyState
          = (emptyState, none)
        ∧ walkFunc unixLib includeDirConfig (bytes "src/lib") (.ok libEntry dirView) emptyState
          = (emptyState, none))
    ∧ visits unixLib sampleConfig sampleWorld = visits unixLib includeDirConfig sampleWorld
    ∧ extractFiles unixLib sampleConfig sampleWorld
        = extractFiles unixLib includeDirConfig sampleWorld :=
  ⟨rfl,
   (c4_include_dirs_never_prune unixLib sampleConfig includeDirConfig rfl).1 (bytes "src/lib")
      libEntry dirView emptyState (by decide) (by decide),
   (c4_include_dirs_never_prune unixLib sampleConfig includeDirConfig rfl).2 sampleWorld⟩

/-- The only NUL byte of `lateNulView` is at offset 512. -/
theorem lateNulView_late : ∀ i, lateNulView.content[i]? = some 0 → 512 ≤ i := by
  intro i h
  by_contra hlt
  have hi : i < 512 := not_le.mp hlt
  have hlen : i < (List.replicate 512 65).length := by
    rw [List.length_replicate]
    exact hi
  have h2 : (List.replicate 512 65 ++ [0])[i]? = some 0 := h
  rw [List.getElem?_append_left hlen, List.getElem?_replicate, if_pos hi] at h2
  cases h2

/-- The file of `lateNulView` is not empty. -/
theorem lateNulView_nonempty : lateNulView.content ≠ [] :=
  List.append_ne_nil_of_right_ne_nil _ (List.cons_ne_nil _ _)

/-- Witness of C5: a file of 513 bytes whose only NUL byte is at offset 512
is not classified as binary. -/
theorem c5_binary_sniff_witness :
    lateNulView.canOpen = true ∧ lateNulView.canRead = true ∧ lateNulView.content ≠ []
    ∧ isBinaryFile lateNulView = false :=
  ⟨rfl, rfl, lateNulView_nonempty,
    ((c5_binary_sniff lateNulView rfl rfl lateNulView_nonempty).2.2 lateNulView_late).1⟩

set_option maxRecDepth 100000 in
/-- A file with a NUL byte at offset 10 is classified as binary. -/
theorem early_nul_is_binary :
    isBinaryFile { canOpen := true, canRead := true,
                   content := bytes "0123456789" ++ [0] ++ bytes "xyz" } = true := by
  decide

set_option maxRecDepth 100000 in
/-- Witness of C6: with a bound of ten bytes, a file of ten bytes is emitted
and a file of eleven bytes is not. -/
theorem c6_size_bound_witness :
    walkFunc unixLib tightConfig (bytes "src/a.go") (.ok goEntry goView) emptyState
        = ({ writer := entryBlock (bytes "src/a.go") (bytes "package a\n"), fileCount := 1 }, none)
    ∧ walkFunc unixLib tightConfig (bytes "src/a.go")
          (.ok { goEntry with info := some 11 } goView) emptyState
        = (emptyState, none) :=
  ⟨(c6_size_bound unixLib tightConfig (bytes "src/a.go") goEntry goView emptyState
      (bytes "package a\n") (by decide) (by decide) (by decide) (by decide) (by decide)).1
      (by decide),
   (c6_size_bound unixLib tightConfig (bytes "src/a.go") { goEntry with info := some 11 }
      goView emptyState (bytes "package a\n") (by decide) (by decide) (by decide) (by decide)
      (by decide)).2.1 (by decide)⟩

set_option maxRecDepth 100000 in
/-- Witness of C7: the link `l.go` is skipped when `followSymlinks` is false
and emitted when it is true. -/
theorem c7_symlink_policy_witness :
    linkEntry.typ = FileMode.symlink
    ∧ walkFunc unixLib sampleConfig (bytes "src/l.go") (.ok linkEntry goView) emptyState
        = (emptyState, none)
    ∧ walkFunc unixLib followConfig (bytes "src/l.go") (.ok linkEntry goView) emptyState
        = ({ writer := entryBlock (bytes "src/l.go") (bytes "package a\n"), fileCount := 1 }, none) :=
  ⟨rfl,
   (c7_symlink_policy unixLib sampleConfig (bytes "src/l.go") linkEntry goView emptyState rfl).1
      (by decide),
   (((c7_symlink_policy unixLib followConfig (bytes "src/l.go") linkEntry goView emptyState
      rfl).2 (by decide)).2.1 (bytes "package a\n")).mpr (by decide)⟩

set_option maxRecDepth 100000 in
/-- Witness of C8: an unreadable file is skipped without error, and the run
over it succeeds. -/
theorem c8_per_entry_failures_witness :
    walkFunc unixLib sampleConfig (bytes "src/a.go") (.ok goEntry lockedView) emptyState
        = (emptyState, none)
    ∧ (extractFiles unixLib sampleConfig lockedWorld).err = none :=
  ⟨(c8_per_entry_failures unixLib sampleConfig (bytes "src/a.go") emptyState).2.2.2.2.1
      goEntry lockedView (by decide) (by decide),
   by
    have h := (c8_per_entry_failures unixLib sampleConfig (bytes "src/a.go")
      emptyState).2.2.2.2.2.2.2 lockedWorld
    by_contra hc
    exact absurd (h.mp hc) (by decide)⟩

set_option maxRecDepth 100000 in
/-- Witness of C1: in the nested sample tree the callback is called for the
entries outside the two excluded directories and for nothing else, the walk
writes the blocks of `src/README.md`, `src/a.go` and `src/pkg/p.go` in that
order, and these are the blocks of the qualifying entries of the tree. -/
theorem c1_tree_files_emitted_in_order_witness :
    (visits unixLib wideConfig deepWorld).map Prod.fst
        = [bytes "src", bytes "src/README.md", bytes "src/a.go", bytes "src/pkg",
           bytes "src/pkg/Vendor", bytes "src/pkg/p.go", bytes "src/pkg/q.txt",
           bytes "src/vendor"]
    ∧ (((treeEntries unixLib wideConfig deepWorld).filter
          (fun e => !e.beneathExcluded unixLib wideConfig)).map (fun e => e.path)
        = [bytes "src", bytes "src/README.md", bytes "src/a.go", bytes "src/pkg",
           bytes "src/pkg/Vendor", bytes "src/pkg/p.go", bytes "src/pkg/q.txt",
           bytes "src/vendor"])
    ∧ (WalkDir unixLib (walkFunc unixLib wideConfig) wideConfig.inputDir deepWorld.root
        emptyState).1
      = { writer := entryBlock (bytes "src/README.md") (bytes "# notes\n")
            ++ entryBlock (bytes "src/a.go") (bytes "package a\n")
            ++ entryBlock (bytes "src/pkg/p.go") (bytes "package p\n"),
          fileCount := 3 }
    ∧ ((treeEntries unixLib wideConfig deepWorld).filter
          (fun e => !e.beneathExcluded unixLib wideConfig)).filterMap
        (Placed.block unixLib wideConfig)
      = [entryBlock (bytes "src/README.md") (bytes "# notes\n"),
         entryBlock (bytes "src/a.go") (bytes "package a\n"),
         entryBlock (bytes "src/pkg/p.go") (bytes "package p\n")]
    ∧ (visits unixLib wideConfig deepWorld).filterMap okCall
        = ((treeEntries unixLib wideConfig deepWorld).filter
            (fun e => !e.beneathExcluded unixLib wideConfig)).map
          (fun e => (e.path, e.d, e.view)) :=
  ⟨by decide, by decide, by decide, by decide,
   (c1_tree_files_emitted_in_order unixLib wideConfig deepWorld emptyState).1⟩

set_option maxRecDepth 100000 in
/-- Witness of C2: under the include list `.md`, `.go` and the exclude list
`.tmp`, `.bak`, the file `src/a.go` is emitted, `src/b.txt` and `src/x.go.BAK`
are not, and `src.d/Makefile` has no extension. -/
theorem c2_extension_check_witness :
    (contains unixLib wideConfig.includeExts (bytes ".go") = true
      ∧ contains unixLib wideConfig.includeExts (bytes ".txt") = false
      ∧ contains unixLib wideConfig.excludeExts (bytes ".bak") = true
      ∧ unixLib.toLower (filepathExt unixLib (bytes "src/x.go.BAK")) = bytes ".bak"
      ∧ unixLib.toLower (filepathExt unixLib (bytes "src.d/Makefile")) = []
      ∧ walkFunc unixLib wideConfig (bytes "src/b.txt") (.ok goEntry goView) emptyState
          = (emptyState, none))
    ∧ walkFunc unixLib wideConfig (bytes "src/a.go") (.ok goEntry goView) emptyState
        = ({ writer := entryBlock (bytes "src/a.go") (bytes "package a\n"), fileCount := 1 }, none)
    ∧ (walkFunc unixLib wideConfig (bytes "src/b.txt") (.ok goEntry goView) emptyState).1
        = emptyState
    ∧ (walkFunc unixLib wideConfig (bytes "src/x.go.BAK") (.ok goEntry goView) emptyState).1
        = emptyState
    ∧ filepathExt unixLib (bytes "src.d/Makefile") = [] :=
  ⟨by decide,
   (c2_extension_check unixLib wideConfig (bytes "src/a.go") goEntry goView emptyState 10
      (bytes "package a\n") (by decide) (by decide) (by decide) (by decide) (by decide)
      (by decide)).1.mpr (by decide),
   (c2_extension_check unixLib wideConfig (bytes "src/b.txt") goEntry goView emptyState 10
      (bytes "package a\n") (by decide) (by decide) (by decide) (by decide) (by decide)
      (by decide)).2.2.2.2.2.2.2.2 (.ok goEntry goView) emptyState (by decide) (by decide),
   (c2_extension_check unixLib wideConfig (bytes "src/x.go.BAK") goEntry goView emptyState 10
      (bytes "package a\n") (by decide) (by decide) (by decide) (by decide) (by decide)
      (by decide)).2.2.2.2.2.2.2.1 (.ok goEntry goView) emptyState (by decide),
   (c2_extension_check unixLib wideConfig (bytes "src/a.go") goEntry goView emptyState 10
      (bytes "package a\n") (by decide) (by decide) (by decide) (by decide) (by decide)
      (by decide)).2.2.2.2.2.1 (bytes "src.d") (bytes "Makefile") 47 (by decide) (by decide)⟩

set_option maxRecDepth 100000 in
/-- The run over the nested sample tree: the header, the blocks of
`src/README.md`, `src/a.go` and `src/pkg/p.go`, and the footer with count
3. -/
theorem deep_report :
    extractFiles unixLib wideConfig deepWorld
      = { err := none,
          report := some (bytes ("File Content Extraction Report\n"
            ++ "Generated: 2024-01-01 00:00:00\n"
            ++ "Source Directory: src\n"
            ++ "==================================================\n\n"
            ++ "src/README.md\n\n# notes\n\n\n"
            ++ "--------------------------------------------------\n\n"
            ++ "src/a.go\n\npackage a\n\n\n"
            ++ "--------------------------------------------------\n\n"
            ++ "src/pkg/p.go\n\npackage p\n\n\n"
            ++ "--------------------------------------------------\n\n"
            ++ "\nExtraction Summary\nFiles processed: 3\nCompleted: 2024-01-01 00:00:01\n")) } := by
  decide

set_option maxRecDepth 100000 in
/-- Witness of C9: the run over the nested sample tree succeeds; its report,
computed by `extractFiles`, holds the header, the blocks of `src/README.md`,
`src/a.go` and `src/pkg/p.go`, and the footer with count 3, and these are the
header, the blocks of the tree and the footer of the statement. -/
theorem c9_report_bytes_witness :
    deepWorld.createFails = false
    ∧ (extractFiles unixLib wideConfig deepWorld).err = none
    ∧ (extractFiles unixLib wideConfig deepWorld).report
        = some (bytes ("File Content Extraction Report\n"
            ++ "Generated: 2024-01-01 00:00:00\n"
            ++ "Source Directory: src\n"
            ++ "==================================================\n\n"
            ++ "src/README.md\n\n# notes\n\n\n"
            ++ "--------------------------------------------------\n\n"
            ++ "src/a.go\n\npackage a\n\n\n"
            ++ "--------------------------------------------------\n\n"
            ++ "src/pkg/p.go\n\npackage p\n\n\n"
            ++ "--------------------------------------------------\n\n"
            ++ "\nExtraction Summary\nFiles processed: 3\nCompleted: 2024-01-01 00:00:01\n"))
    ∧ treeBlocks unixLib wideConfig deepWorld
        = [entryBlock (bytes "src/README.md") (bytes "# notes\n"),
           entryBlock (bytes "src/a.go") (bytes "package a\n"),
           entryBlock (bytes "src/pkg/p.go") (bytes "package p\n")]
    ∧ (extractFiles unixLib wideConfig deepWorld).report
        = some (header wideConfig deepWorld
            ++ (treeBlocks unixLib wideConfig deepWorld).flatten
            ++ footer deepWorld (treeBlocks unixLib wideConfig deepWorld).length) :=
  ⟨rfl, (c9_report_bytes unixLib wideConfig deepWorld rfl).1, by decide, by decide,
   (c9_report_bytes unixLib wideConfig deepWorld rfl).2.1⟩

set_option maxRecDepth 100000 in
/-- The run over an empty directory succeeds and its report is the header
followed by the footer with count 0. -/
theorem empty_directory_report :
    extractFiles unixLib sampleConfig emptyDirWorld
      = { err := none,
          report := some (bytes ("File Content Extraction Report\n"
            ++ "Generated: 2024-01-01 00:00:00\n"
            ++ "Source Directory: src\n"
            ++ "==================================================\n\n"
            ++ "\nExtraction Summary\nFiles processed: 0\nCompleted: 2024-01-01 00:00:01\n")) } := by
  decide

set_option maxRecDepth 100000 in
/-- Witness of C10: under the exclude list `.git`, `vendor` the callback
returns `filepath.SkipDir` for the directory `Vendor`, which matches the
second entry, and `nil` for the directory `lib` and for a file. -/
theorem c10_prune_signal_witness :
    (shouldExcludeDir unixLib vendorEntry.name wideConfig.excludeDirs = true
      ∧ shouldExcludeDir unixLib libEntry.name wideConfig.excludeDirs = false
      ∧ walkFunc unixLib wideConfig (bytes "src/Vendor") (.ok vendorEntry dirView) emptyState
          = (emptyState, some WalkErr.skipDir))
    ∧ (walkFunc unixLib wideConfig (bytes "src/Vendor") (.ok vendorEntry dirView) emptyState).2
        = some WalkErr.skipDir
    ∧ (walkFunc unixLib wideConfig (bytes "src/lib") (.ok libEntry dirView) emptyState).2
        = none
    ∧ (walkFunc unixLib wideConfig (bytes "src/a.go") (.ok goEntry goView) emptyState).2
        = none :=
  ⟨by decide,
   (c10_prune_signal unixLib wideConfig (bytes "src/Vendor") (.ok vendorEntry dirView)
      emptyState).1.mpr
      ⟨vendorEntry, dirView, rfl, by decide, by decide, bytes "vendor", by decide, by decide⟩,
   (c10_prune_signal unixLib wideConfig (bytes "src/lib") (.ok libEntry dirView)
      emptyState).2.1 (by decide),
   (c10_prune_signal unixLib wideConfig (bytes "src/a.go") (.ok goEntry goView)
      emptyState).2.2.1 goEntry goView (by decide)⟩

end FileExtractor
